import Mathlib

set_option maxHeartbeats 1000000

/-!
Shallow embedding of the ingest shard controller
(`quickwit-control-plane/src/ingest/ingest_controller.rs`).

Opaque identifiers (`NodeId`, `ShardId`, `IndexUid`, `SourceId`) are embedded
as natural numbers; the code only compares them for equality and order.
External effects (metastore RPCs, ingester RPCs, ULID minting) are passed in
as explicit oracle functions or counters.
-/

/-- State of a shard: `Open`, `Closed` or `Unavailable`. -/
inductive ShardState where
  | Open
  | Closed
  | Unavailable
deriving DecidableEq, Repr

/-- A source is identified by an index UID and a source id. -/
structure SourceUid where
  index_uid : Nat
  source_id : Nat
deriving DecidableEq, Repr

/-- A shard record: id, owning source, leader, optional follower, state,
publish position and last observed ingestion rate (`RateMibPerSec`). -/
structure Shard where
  shard_id : Nat
  index_uid : Nat
  source_id : Nat
  leader_id : Nat
  follower_id : Option Nat
  shard_state : ShardState
  publish_position_inclusive : Nat
  ingestion_rate : Nat
deriving DecidableEq, Repr

/-- A shard is open when its state is `Open`. -/
def Shard.is_open (s : Shard) : Bool :=
  match s.shard_state with
  | ShardState.Open => true
  | _ => false

/-- Per-shard throughput sample pushed by an ingester (`ShardInfo`). -/
structure ShardInfo where
  shard_id : Nat
  shard_state : ShardState
  ingestion_rate : Nat
deriving DecidableEq, Repr

/-- Per-source aggregate statistics returned by `Model.update_shards`. -/
structure ShardStats where
  num_open_shards : Nat
  avg_ingestion_rate : ℚ
deriving DecidableEq, Repr

/-- Scaling direction for permits. -/
inductive ScalingMode where
  | Up
  | Down
deriving DecidableEq, Repr

/-- Modelled from the spec: the in-memory cluster model `Model`
(`crate::model::ControlPlaneModel`, not part of the sources under review):
an index-id table, the set of known sources, the shard table, and per-source
scaling permit counters for each direction. -/
structure ControlPlaneModel where
  indexes : List (Nat × Nat)
  sources : List SourceUid
  shards : List Shard
  up_permits : List (SourceUid × Nat)
  down_permits : List (SourceUid × Nat)
deriving DecidableEq, Repr

/-- Modelled from the spec: lookup of the index UID for an index id. -/
def ControlPlaneModel.index_uid_of (m : ControlPlaneModel) (index_id : Nat) : Option Nat :=
  (m.indexes.find? (fun p => p.1 == index_id)).map (fun p => p.2)

/-- Modelled from the spec: `Model.find_open_shards` returns `none` when the
source is unknown, otherwise the source's shards whose state is `Open` and
whose leader is not in the reported unavailable set. -/
def ControlPlaneModel.find_open_shards (m : ControlPlaneModel) (index_uid source_id : Nat)
    (unavailable_leaders : List Nat) : Option (List Shard) :=
  if SourceUid.mk index_uid source_id ∈ m.sources then
    some (m.shards.filter (fun s =>
      s.index_uid == index_uid && s.source_id == source_id && s.is_open &&
        !(unavailable_leaders.contains s.leader_id)))
  else none

/-- Modelled from the spec: `Model.close_shards` transitions the listed shards
of the given source to `Closed` (idempotent). -/
def ControlPlaneModel.close_shards (m : ControlPlaneModel) (su : SourceUid)
    (shard_ids : List Nat) : ControlPlaneModel :=
  { m with shards := m.shards.map (fun s =>
      if s.index_uid == su.index_uid && s.source_id == su.source_id &&
          shard_ids.contains s.shard_id then
        { s with shard_state := ShardState.Closed }
      else s) }

/-- Modelled from the spec: `Model.set_shards_as_unavailable` marks the open
shards led by a confirmed-unavailable leader as `Unavailable` (a `Closed`
shard never returns to another state). -/
def ControlPlaneModel.set_shards_as_unavailable (m : ControlPlaneModel)
    (leaders : List Nat) : ControlPlaneModel :=
  { m with shards := m.shards.map (fun s =>
      if s.is_open && leaders.contains s.leader_id then
        { s with shard_state := ShardState.Unavailable }
      else s) }

/-- Two shards share a key when index uid, source id and shard id all agree. -/
def shard_key_matches (a b : Shard) : Bool :=
  a.index_uid == b.index_uid && a.source_id == b.source_id && a.shard_id == b.shard_id

/-- Modelled from the spec: insert one shard into the model, overwriting any
shard with the same (index uid, source id, shard id) key. -/
def ControlPlaneModel.insert_shard (m : ControlPlaneModel) (x : Shard) : ControlPlaneModel :=
  if m.shards.any (fun s => shard_key_matches s x) then
    { m with shards := m.shards.map (fun s => if shard_key_matches s x then x else s) }
  else
    { m with shards := m.shards ++ [x] }

/-- Modelled from the spec: `Model.insert_shards` inserts a batch of shards. -/
def ControlPlaneModel.insert_shards (m : ControlPlaneModel) (xs : List Shard) :
    ControlPlaneModel :=
  xs.foldl ControlPlaneModel.insert_shard m

/-- Modelled from the spec: `Model.get_shards_for_source` returns the source's
shards as an ordered map, i.e. in ascending shard-id order, or `none` when the
source is unknown. -/
def ControlPlaneModel.get_shards_for_source (m : ControlPlaneModel) (su : SourceUid) :
    Option (List Shard) :=
  if su ∈ m.sources then
    some (List.insertionSort (fun a b => a.shard_id ≤ b.shard_id)
      (m.shards.filter (fun s =>
        s.index_uid == su.index_uid && s.source_id == su.source_id)))
  else none

/-- Modelled from the spec: `Model.update_shards` applies absolute per-shard
rate samples for one source and returns the fresh per-source statistics
(open-shard count and average ingestion rate). -/
def ControlPlaneModel.update_shards (m : ControlPlaneModel) (su : SourceUid)
    (shard_infos : List ShardInfo) : ControlPlaneModel × ShardStats :=
  let m' : ControlPlaneModel := { m with shards := m.shards.map (fun s =>
    if s.index_uid == su.index_uid && s.source_id == su.source_id then
      match shard_infos.find? (fun i => i.shard_id == s.shard_id) with
      | some i => { s with ingestion_rate := i.ingestion_rate }
      | none => s
    else s) }
  let opens := m'.shards.filter (fun s =>
    s.index_uid == su.index_uid && s.source_id == su.source_id && s.is_open)
  let stats : ShardStats :=
    { num_open_shards := opens.length
      avg_ingestion_rate :=
        if opens.length == 0 then 0
        else ((opens.map (fun s => (s.ingestion_rate : ℚ))).sum) / (opens.length : ℚ) }
  (m', stats)

/-- Update the counter of the first entry with the given key. -/
def update_first_permit (su : SourceUid) (f : Nat → Nat) :
    List (SourceUid × Nat) → List (SourceUid × Nat)
  | [] => []
  | p :: rest =>
      if p.1 == su then (p.1, f p.2) :: rest else p :: update_first_permit su f rest

/-- Read the permit list of the given direction. -/
def ControlPlaneModel.permits (m : ControlPlaneModel) : ScalingMode → List (SourceUid × Nat)
  | ScalingMode.Up => m.up_permits
  | ScalingMode.Down => m.down_permits

/-- Replace the permit list of the given direction. -/
def ControlPlaneModel.with_permits (m : ControlPlaneModel) (mode : ScalingMode)
    (ps : List (SourceUid × Nat)) : ControlPlaneModel :=
  match mode with
  | ScalingMode.Up => { m with up_permits := ps }
  | ScalingMode.Down => { m with down_permits := ps }

/-- Modelled from the spec: `Model.acquire_scaling_permits` grants `num`
permits for the source and direction when the source has a bucket holding at
least `num` tokens; granting decrements the bucket. An unknown source yields
no grant (the caller unwraps `None` to `false`). -/
def ControlPlaneModel.acquire_scaling_permits (m : ControlPlaneModel) (su : SourceUid)
    (mode : ScalingMode) (num : Nat) : ControlPlaneModel × Bool :=
  match (m.permits mode).find? (fun p => p.1 == su) with
  | none => (m, false)
  | some entry =>
      if num ≤ entry.2 then
        (m.with_permits mode (update_first_permit su (fun c => c - num) (m.permits mode)), true)
      else (m, false)

/-- Modelled from the spec: `Model.release_scaling_permits` returns `num`
tokens to the source's bucket for the direction. -/
def ControlPlaneModel.release_scaling_permits (m : ControlPlaneModel) (su : SourceUid)
    (mode : ScalingMode) (num : Nat) : ControlPlaneModel :=
  m.with_permits mode (update_first_permit su (fun c => c + num) (m.permits mode))

/-- Modelled from the spec: `Model.drain_scaling_permits` empties the
source's bucket for the direction. -/
def ControlPlaneModel.drain_scaling_permits (m : ControlPlaneModel) (su : SourceUid)
    (mode : ScalingMode) : ControlPlaneModel :=
  m.with_permits mode (update_first_permit su (fun _ => 0) (m.permits mode))

/-! ### Placement allocator (`allocate_shards`) -/

/-- Available ingesters: the pool minus the unavailable leaders, sorted by
ascending node id (the code sorts the filtered pool keys). -/
def available_ingesters (ingester_pool unavailable_leaders : List Nat) : List Nat :=
  List.insertionSort (fun a b => a ≤ b)
    (ingester_pool.filter (fun i => !(unavailable_leaders.contains i)))

/-- The leader/follower pairing traversed by both allocation passes:
each node paired with its cyclic successor
(the code zips the node list with itself cycled and shifted by one). -/
def cyclic_pairs (l : List Nat) : List (Nat × Nat) := l.zip (l.rotate 1)

/-- Count of open shards whose leader is not in the unavailable set. -/
def num_open_shards_total (shards : List Shard) (unavailable_leaders : List Nat) : Nat :=
  (shards.filter (fun s => s.is_open && !(unavailable_leaders.contains s.leader_id))).length

/-- Per-leader count of open shards whose leader is not in the unavailable set. -/
def num_open_shards_of_leader (shards : List Shard) (unavailable_leaders : List Nat)
    (leader : Nat) : Nat :=
  (shards.filter (fun s =>
    (s.is_open && !(unavailable_leaders.contains s.leader_id)) && s.leader_id == leader)).length

/-- First allocation pass: each leader receives up to
`cap - count leader` shards, bounded by the remaining budget.
Returns the allocated pairs and the remaining budget. -/
def allocate_pass1 (replication_factor cap : Nat) (count : Nat → Nat) :
    List (Nat × Nat) → Nat → List (Nat × Option Nat) × Nat
  | [], rem => ([], rem)
  | (leader, follower) :: rest, rem =>
      let k := min (cap - count leader) rem
      let pair := (leader, if replication_factor > 1 then some follower else none)
      let step := allocate_pass1 replication_factor cap count rest (rem - k)
      (List.replicate k pair ++ step.1, step.2)

/-- Second allocation pass: distribute the remaining shards one per node. -/
def allocate_pass2 (replication_factor : Nat) :
    List (Nat × Nat) → Nat → List (Nat × Option Nat) × Nat
  | [], rem => ([], rem)
  | (leader, follower) :: rest, rem =>
      if rem == 0 then ([], 0)
      else
        let pair := (leader, if replication_factor > 1 then some follower else none)
        let step := allocate_pass2 replication_factor rest (rem - 1)
        (pair :: step.1, step.2)

/-- The placement allocator (`IngestController::allocate_shards`): refuses when
no ingester is available or the replication factor exceeds the number of
available ingesters; otherwise allocates leader/follower pairs in two passes,
a soft-capped pass then a round-robin pass for the leftover shards. -/
def allocate_shards (replication_factor : Nat) (ingester_pool : List Nat)
    (num_shards_to_allocate : Nat) (unavailable_leaders : List Nat)
    (m : ControlPlaneModel) : Option (List (Nat × Option Nat)) :=
  let ingesters := available_ingesters ingester_pool unavailable_leaders
  let num_ingesters := ingesters.length
  if num_ingesters == 0 then none
  else if replication_factor > num_ingesters then none
  else
    let num_open_shards := num_open_shards_total m.shards unavailable_leaders
    let num_open_shards_target := num_shards_to_allocate + num_open_shards
    let max_num_shards_to_allocate_per_node := num_open_shards_target / num_ingesters
    let count := num_open_shards_of_leader m.shards unavailable_leaders
    let pairs := cyclic_pairs ingesters
    let pass1 := allocate_pass1 replication_factor max_num_shards_to_allocate_per_node count
      pairs num_shards_to_allocate
    let pass2 := allocate_pass2 replication_factor pairs pass1.2
    some (pass1.1 ++ pass2.1)

/-! ### Arithmetic lemmas for the allocator -/

lemma sum_map_add_split {α : Type} (A : List α) (u v : α → Nat) :
    (A.map (fun a => u a + v a)).sum = (A.map u).sum + (A.map v).sum := by
  induction A with
  | nil => simp
  | cons a A ih => simp [ih]; omega

lemma sum_map_sub_le {α : Type} (A : List α) (f g : α → Nat) :
    (A.map f).sum - (A.map g).sum ≤ (A.map (fun a => f a - g a)).sum := by
  induction A with
  | nil => simp
  | cons a A ih => simp only [List.map_cons, List.sum_cons]; omega

lemma sum_indicator_of_not_mem (x : Nat) (A : List Nat) (hx : x ∉ A) :
    (A.map (fun a => if x = a then (1 : Nat) else 0)).sum = 0 := by
  induction A with
  | nil => simp
  | cons a A ih =>
      simp only [List.mem_cons, not_or] at hx
      simp [hx.1, ih hx.2]

lemma sum_indicator_le_one (x : Nat) (A : List Nat) (hA : A.Nodup) :
    (A.map (fun a => if x = a then (1 : Nat) else 0)).sum ≤ 1 := by
  induction A with
  | nil => simp
  | cons a A ih =>
      rcases List.nodup_cons.mp hA with ⟨ha, hA'⟩
      by_cases hxa : x = a
      · subst hxa
        simp [sum_indicator_of_not_mem x A ha]
      · simp only [List.map_cons, List.sum_cons, if_neg hxa]
        simpa using ih hA'

lemma sum_countP_leader_le (q : Shard → Bool) (shards : List Shard) (A : List Nat)
    (hA : A.Nodup) :
    (A.map (fun a => shards.countP (fun s => q s && s.leader_id == a))).sum ≤
      shards.countP q := by
  induction shards with
  | nil => simp
  | cons s tl ih =>
      simp only [List.countP_cons]
      have hsplit := sum_map_add_split A
        (fun a => tl.countP (fun s => q s && s.leader_id == a))
        (fun a => if (q s && s.leader_id == a) = true then 1 else 0)
      simp only [hsplit]
      have hind : (A.map (fun a => if (q s && s.leader_id == a) = true then (1 : Nat)
          else 0)).sum ≤ 1 := by
        by_cases hq : q s = true
        · have heq : (A.map (fun a => if (q s && s.leader_id == a) = true then (1 : Nat)
              else 0)) = (A.map (fun a => if s.leader_id = a then (1 : Nat) else 0)) := by
            apply List.map_congr_left
            intro a _
            simp [hq]
          rw [heq]
          exact sum_indicator_le_one s.leader_id A hA
        · simp only [Bool.not_eq_true] at hq
          simp [hq]
      have hcase : (if q s = true then (1 : Nat) else 0) = 0 ∨
          (if q s = true then (1 : Nat) else 0) = 1 := by
        by_cases hq : q s = true <;> simp [hq]
      have hite : (A.map (fun a => if (q s && s.leader_id == a) = true then (1 : Nat)
          else 0)).sum ≤ (if q s = true then (1 : Nat) else 0) := by
        by_cases hq : q s = true
        · simpa [hq] using hind
        · simp only [Bool.not_eq_true] at hq
          simp [hq]
      omega

lemma sum_leader_counts_le (shards : List Shard) (U : List Nat) (A : List Nat)
    (hA : A.Nodup) :
    (A.map (fun a => num_open_shards_of_leader shards U a)).sum ≤
      num_open_shards_total shards U := by
  have h := sum_countP_leader_le
    (fun s => s.is_open && !(U.contains s.leader_id)) shards A hA
  simp only [num_open_shards_of_leader, num_open_shards_total,
    ← List.countP_eq_length_filter]
  exact h

lemma available_ingesters_nodup (pool U : List Nat) (hpool : pool.Nodup) :
    (available_ingesters pool U).Nodup := by
  unfold available_ingesters
  exact (List.perm_insertionSort _ _).nodup_iff.mpr (hpool.filter _)

lemma map_fst_cyclic_pairs (A : List Nat) : (cyclic_pairs A).map Prod.fst = A := by
  unfold cyclic_pairs
  exact List.map_fst_zip _ _ (by simp [List.length_rotate])

lemma length_cyclic_pairs (A : List Nat) : (cyclic_pairs A).length = A.length := by
  unfold cyclic_pairs
  simp [List.length_zip, List.length_rotate]

lemma allocate_pass1_spec (R cap : Nat) (c : Nat → Nat) :
    ∀ (pairs : List (Nat × Nat)) (rem : Nat),
      (allocate_pass1 R cap c pairs rem).1.length + (allocate_pass1 R cap c pairs rem).2 = rem ∧
      (allocate_pass1 R cap c pairs rem).2 =
        rem - (pairs.map (fun p => cap - c p.1)).sum := by
  intro pairs
  induction pairs with
  | nil => intro rem; simp [allocate_pass1]
  | cons p rest ih =>
      intro rem
      obtain ⟨l, f⟩ := p
      have h := ih (rem - min (cap - c l) rem)
      simp only [allocate_pass1, List.length_append, List.length_replicate, List.map_cons,
        List.sum_cons]
      omega

lemma allocate_pass2_length (R : Nat) :
    ∀ (pairs : List (Nat × Nat)) (rem : Nat),
      (allocate_pass2 R pairs rem).1.length = min rem pairs.length := by
  intro pairs
  induction pairs with
  | nil => intro rem; simp [allocate_pass2]
  | cons p rest ih =>
      intro rem
      obtain ⟨l, f⟩ := p
      by_cases h0 : rem = 0
      · simp [allocate_pass2, h0]
      · have hbeq : (rem == 0) = false := by simp [h0]
        simp only [allocate_pass2, hbeq, Bool.false_eq_true, if_false, List.length_cons,
          List.length_cons, ih (rem - 1)]
        omega

lemma allocate_pass1_mem (R cap : Nat) (c : Nat → Nat) :
    ∀ (pairs : List (Nat × Nat)) (rem : Nat) (p : Nat × Option Nat),
      p ∈ (allocate_pass1 R cap c pairs rem).1 →
      ∃ q ∈ pairs, p = (q.1, if R > 1 then some q.2 else none) := by
  intro pairs
  induction pairs with
  | nil => intro rem p hp; simp [allocate_pass1] at hp
  | cons q rest ih =>
      intro rem p hp
      obtain ⟨l, f⟩ := q
      simp only [allocate_pass1, List.mem_append] at hp
      rcases hp with hp | hp
      · exact ⟨(l, f), by simp, List.eq_of_mem_replicate hp⟩
      · obtain ⟨q', hq', hEq⟩ := ih _ p hp
        exact ⟨q', by simp [hq'], hEq⟩

lemma allocate_pass2_mem (R : Nat) :
    ∀ (pairs : List (Nat × Nat)) (rem : Nat) (p : Nat × Option Nat),
      p ∈ (allocate_pass2 R pairs rem).1 →
      ∃ q ∈ pairs, p = (q.1, if R > 1 then some q.2 else none) := by
  intro pairs
  induction pairs with
  | nil => intro rem p hp; simp [allocate_pass2] at hp
  | cons q rest ih =>
      intro rem p hp
      obtain ⟨l, f⟩ := q
      by_cases h0 : rem = 0
      · simp [allocate_pass2, h0] at hp
      · have hbeq : (rem == 0) = false := by simp [h0]
        simp only [allocate_pass2, hbeq, Bool.false_eq_true, if_false, List.mem_cons] at hp
        rcases hp with hp | hp
        · exact ⟨(l, f), by simp, hp⟩
        · obtain ⟨q', hq', hEq⟩ := ih _ p hp
          exact ⟨q', by simp [hq'], hEq⟩

lemma allocate_shards_mem (R : Nat) (pool U : List Nat) (N : Nat) (m : ControlPlaneModel)
    (ps : List (Nat × Option Nat)) (hps : allocate_shards R pool N U m = some ps)
    (p : Nat × Option Nat) (hp : p ∈ ps) :
    ∃ q ∈ cyclic_pairs (available_ingesters pool U),
      p = (q.1, if R > 1 then some q.2 else none) := by
  unfold allocate_shards at hps
  by_cases h0 : (available_ingesters pool U).length = 0
  · simp [h0] at hps
  · by_cases hR : R > (available_ingesters pool U).length
    · simp [h0, hR] at hps
    · rw [if_neg (by simpa using h0), if_neg hR] at hps
      have hps' := Option.some.inj hps
      subst hps'
      rcases List.mem_append.mp hp with hmem | hmem
      · exact allocate_pass1_mem R _ _ _ _ p hmem
      · exact allocate_pass2_mem R _ _ p hmem

lemma allocate_shards_length (R : Nat) (pool U : List Nat) (N : Nat) (m : ControlPlaneModel)
    (hpool : pool.Nodup) (ps : List (Nat × Option Nat))
    (hps : allocate_shards R pool N U m = some ps) : ps.length = N := by
  unfold allocate_shards at hps
  by_cases h0 : (available_ingesters pool U).length = 0
  · simp [h0] at hps
  · by_cases hR : R > (available_ingesters pool U).length
    · simp [h0, hR] at hps
    · rw [if_neg (by simpa using h0), if_neg hR] at hps
      have hps' := Option.some.inj hps
      set A := available_ingesters pool U with hAdef
      set n := A.length with hn
      set C := num_open_shards_total m.shards U with hC
      set cap := (N + C) / n with hcap
      set c := num_open_shards_of_leader m.shards U with hc
      set pairs := cyclic_pairs A with hpairs
      have hAnodup : A.Nodup := available_ingesters_nodup pool U hpool
      have hp1 := allocate_pass1_spec R cap c pairs N
      have hp2 := allocate_pass2_length R pairs (allocate_pass1 R cap c pairs N).2
      have hplen : pairs.length = n := length_cyclic_pairs A
      have hsub := sum_map_sub_le pairs (fun _ => cap) (fun p => c p.1)
      have hconstsum : (pairs.map (fun _ => cap)).sum = n * cap := by
        rw [List.map_const']
        simp [List.sum_replicate, hplen, smul_eq_mul]
      have hmapfst : (pairs.map (fun p => c p.1)).sum = (A.map (fun a => c a)).sum := by
        have : pairs.map (fun p => c p.1) = (pairs.map Prod.fst).map c := by
          rw [List.map_map]
          rfl
        rw [this, map_fst_cyclic_pairs]
      have hCA : (A.map (fun a => c a)).sum ≤ C := sum_leader_counts_le m.shards U A hAnodup
      have hdiv : n * cap + (N + C) % n = N + C := Nat.div_add_mod (N + C) n
      have hmod : (N + C) % n < n := Nat.mod_lt _ (Nat.pos_of_ne_zero h0)
      rw [← hps']
      rw [List.length_append, hp2, hplen]
      omega

lemma allocate_shards_none_iff (R : Nat) (pool U : List Nat) (N : Nat)
    (m : ControlPlaneModel) :
    allocate_shards R pool N U m = none ↔
      available_ingesters pool U = [] ∨ R > (available_ingesters pool U).length := by
  by_cases h0 : (available_ingesters pool U).length = 0
  · have hemp : available_ingesters pool U = [] := List.length_eq_zero.mp h0
    simp [allocate_shards, h0, hemp]
  · have hne : ¬ available_ingesters pool U = [] := by
      intro h
      exact h0 (by simp [h])
    by_cases hR : R > (available_ingesters pool U).length
    · simp [allocate_shards, h0, hR]
    · unfold allocate_shards
      rw [if_neg (by simpa using h0), if_neg hR]
      simp [hne, hR]

lemma cyclic_pairs_get (A : List Nat) (q : Nat × Nat) (hq : q ∈ cyclic_pairs A) :
    ∃ i : Fin A.length, q.1 = A.get i ∧
      q.2 = A.get ⟨((i : Nat) + 1) % A.length, Nat.mod_lt _ i.pos⟩ := by
  unfold cyclic_pairs at hq
  obtain ⟨j, hj⟩ := List.mem_iff_get.mp hq
  have hlen : (A.zip (A.rotate 1)).length = A.length := by
    simp [List.length_zip, List.length_rotate]
  have hjA : (j : Nat) < A.length := hlen ▸ j.isLt
  refine ⟨⟨(j : Nat), hjA⟩, ?_, ?_⟩
  · have := @List.getElem_zip _ _ A (A.rotate 1) (j : Nat) j.isLt
    rw [List.get_eq_getElem, ← hj, List.get_eq_getElem, this]
  · have hz := @List.getElem_zip _ _ A (A.rotate 1) (j : Nat) j.isLt
    have hrot := List.getElem_rotate A 1 (j : Nat)
      (by simp [List.length_rotate]; exact hjA)
    rw [List.get_eq_getElem, ← hj, List.get_eq_getElem, hz, hrot]

lemma cyclic_succ_ne (A : List Nat) (hA : A.Nodup) (h2 : 2 ≤ A.length) (i : Fin A.length) :
    A.get ⟨((i : Nat) + 1) % A.length, Nat.mod_lt _ i.pos⟩ ≠ A.get i := by
  intro hEq
  have hfin : (⟨((i : Nat) + 1) % A.length, Nat.mod_lt _ i.pos⟩ : Fin A.length) = i :=
    (hA.get_inj_iff).mp hEq
  have hval : ((i : Nat) + 1) % A.length = (i : Nat) := congrArg Fin.val hfin
  rcases Nat.lt_or_ge ((i : Nat) + 1) A.length with hlt | hge
  · rw [Nat.mod_eq_of_lt hlt] at hval
    omega
  · have hi : (i : Nat) < A.length := i.isLt
    have heq1 : (i : Nat) + 1 = A.length := by omega
    rw [heq1, Nat.mod_self] at hval
    omega

/-- Claim C3: for every call to `allocate_shards` with `N` shards requested,
unavailable set `U` and replication factor `R`, it returns a refusal (`none`)
if and only if the pool minus `U` is empty or `R` exceeds the number of
available ingesters; otherwise it returns a vector of exactly `N`
(leader, optional follower) pairs, even when the per-node soft cap leaves
shards unallocated after the first pass. -/
theorem claim_c3_allocate_shards_refusal_and_arity (R : Nat) (pool U : List Nat)
    (N : Nat) (m : ControlPlaneModel) (hpool : pool.Nodup) :
    (allocate_shards R pool N U m = none ↔
      available_ingesters pool U = [] ∨ R > (available_ingesters pool U).length) ∧
    ∀ ps, allocate_shards R pool N U m = some ps → ps.length = N :=
  ⟨allocate_shards_none_iff R pool U N m,
   fun ps hps => allocate_shards_length R pool U N m hpool ps hps⟩

/-- Witness for C3 at a concrete input (empty model, pool {1, 2}, R = 2,
N = 3): the soft cap admits one shard per node in the first pass and the
third shard is placed by the second pass, so exactly 3 pairs come back. -/
theorem claim_c3_witness :
    ([1, 2] : List Nat).Nodup ∧
    allocate_shards 2 [1, 2] 3 [] ⟨[], [], [], [], []⟩ =
      some [(1, some 2), (2, some 1), (1, some 2)] ∧
    ([(1, some 2), (2, some 1), (1, some 2)] : List (Nat × Option Nat)).length = 3 :=
  ⟨by decide, by decide,
   (claim_c3_allocate_shards_refusal_and_arity 2 [1, 2] [] 3 ⟨[], [], [], [], []⟩
     (by decide)).2 _ (by decide)⟩

/-- Claim C4: for every non-refused `allocate_shards` output computed with
replication factor `R` over the sorted available node list `A`: if `R > 1`,
every returned pair's follower is the leader's cyclic successor in `A` and is
distinct from the leader; if `R = 1`, every returned pair has no follower. -/
theorem claim_c4_allocate_shards_follower_pairing (R : Nat) (pool U : List Nat)
    (N : Nat) (m : ControlPlaneModel) (hpool : pool.Nodup)
    (ps : List (Nat × Option Nat)) (hps : allocate_shards R pool N U m = some ps) :
    (R > 1 → ∀ p ∈ ps, ∃ i : Fin (available_ingesters pool U).length,
      p.1 = (available_ingesters pool U).get i ∧
      p.2 = some ((available_ingesters pool U).get
        ⟨((i : Nat) + 1) % (available_ingesters pool U).length, Nat.mod_lt _ i.pos⟩) ∧
      p.2 ≠ some p.1) ∧
    (R = 1 → ∀ p ∈ ps, p.2 = none) := by
  constructor
  · intro hR1 p hp
    obtain ⟨q, hq, hpq⟩ := allocate_shards_mem R pool U N m ps hps p hp
    obtain ⟨i, hq1, hq2⟩ := cyclic_pairs_get _ q hq
    have hne2 : ¬(available_ingesters pool U = [] ∨
        R > (available_ingesters pool U).length) := by
      intro h
      have hcontr := (allocate_shards_none_iff R pool U N m).mpr h
      rw [hps] at hcontr
      exact Option.noConfusion hcontr
    push_neg at hne2
    obtain ⟨-, hle⟩ := hne2
    have hlen2 : 2 ≤ (available_ingesters pool U).length := by omega
    have hAnodup := available_ingesters_nodup pool U hpool
    rw [hpq, if_pos hR1]
    refine ⟨i, hq1, by rw [hq2], ?_⟩
    simp only [ne_eq, Option.some.injEq]
    rw [hq1, hq2]
    exact cyclic_succ_ne _ hAnodup hlen2 i
  · intro hR1 p hp
    obtain ⟨q, hq, hpq⟩ := allocate_shards_mem R pool U N m ps hps p hp
    rw [hpq]
    simp [hR1]

/-- Witness for C4 at a concrete input (empty model, pool {1, 2}, R = 2,
N = 1): the returned pair (leader 1, follower 2) has the follower equal to
the cyclic successor of the leader and distinct from it. -/
theorem claim_c4_witness :
    ∃ i : Fin (available_ingesters [1, 2] []).length,
      ((1 : Nat), some (2 : Nat)).1 = (available_ingesters [1, 2] []).get i ∧
      ((1 : Nat), some (2 : Nat)).2 = some ((available_ingesters [1, 2] []).get
        ⟨((i : Nat) + 1) % (available_ingesters [1, 2] []).length, Nat.mod_lt _ i.pos⟩) ∧
      ((1 : Nat), some (2 : Nat)).2 ≠ some ((1 : Nat), some (2 : Nat)).1 :=
  (claim_c4_allocate_shards_follower_pairing 2 [1, 2] [] 1 ⟨[], [], [], [], []⟩ (by decide)
    [(1, some 2)] (by decide)).1 (by decide) (1, some 2) (by decide)

/-! ### Scale-down candidate selection (`find_scale_down_candidate`) -/

/-- One step of the per-leader accumulation in `find_scale_down_candidate`:
bump the leader's open-shard count and replace its representative when the
new shard compares greater under the lexicographic
(ingestion_rate, shard_id) comparison; absent leaders are inserted with
count 1 and the shard as representative. -/
def scale_down_step (acc : List (Nat × (Nat × Shard))) (s : Shard) :
    List (Nat × (Nat × Shard)) :=
  if acc.any (fun e => e.1 == s.leader_id) then
    acc.map (fun e =>
      if e.1 == s.leader_id then
        (e.1, (e.2.1 + 1,
          if e.2.2.ingestion_rate < s.ingestion_rate ∨
              (e.2.2.ingestion_rate = s.ingestion_rate ∧ e.2.2.shard_id < s.shard_id)
          then s else e.2.2))
      else e)
  else acc ++ [(s.leader_id, (1, s))]

/-- First entry holding the minimal per-leader open-shard count
(`min_by_key` keeps the first minimum). -/
def min_by_num_shards : List (Nat × (Nat × Shard)) → Option (Nat × (Nat × Shard))
  | [] => none
  | e :: rest =>
      match min_by_num_shards rest with
      | none => some e
      | some e' => if e.2.1 ≤ e'.2.1 then some e else some e'

/-- `find_scale_down_candidate`: among the source's open shards, group by
leader keeping a per-leader count and representative, then return the leader
holding the fewest open shards together with its representative's shard id. -/
def find_scale_down_candidate (source_uid : SourceUid) (m : ControlPlaneModel) :
    Option (Nat × Nat) :=
  match m.get_shards_for_source source_uid with
  | none => none
  | some shards =>
      let per_leader_candidates :=
        (shards.filter (fun s => s.is_open)).foldl scale_down_step []
      match min_by_num_shards per_leader_candidates with
      | none => none
      | some e => some (e.1, e.2.2.shard_id)

/-- Claim C2 (code-bug evidence): with a single leader 7 holding two open
shards 1 and 2 with equal ingestion rates, `find_scale_down_candidate`
selects (7, 2): the rate tie is broken towards the *highest* shard id,
whereas the claim — and the function's own doc comment — require the lowest
(oldest) shard id, i.e. (7, 1). -/
theorem claim_c2_tie_break_failing_input :
    find_scale_down_candidate ⟨1, 1⟩
      ⟨[], [⟨1, 1⟩],
        [⟨1, 1, 1, 7, none, ShardState.Open, 0, 3⟩,
         ⟨2, 1, 1, 7, none, ShardState.Open, 0, 3⟩], [], []⟩ = some (7, 2) ∧
    ¬ (some ((7 : Nat), (2 : Nat)) = some ((7 : Nat), (1 : Nat))) := by
  decide

/-! ### Autoscaler (`handle_local_shards_update`, `try_scale_up_shards`,
`try_scale_down_shards`) -/

def MAX_SHARD_INGESTION_THROUGHPUT_MIB_PER_SEC : ℚ := 5

/-- Threshold in MiB/s above which the number of shards is increased. -/
def SCALE_UP_SHARDS_THRESHOLD_MIB_PER_SEC : ℚ :=
  MAX_SHARD_INGESTION_THROUGHPUT_MIB_PER_SEC * 8 / 10

/-- Threshold in MiB/s below which the number of shards is decreased. -/
def SCALE_DOWN_SHARDS_THRESHOLD_MIB_PER_SEC : ℚ :=
  MAX_SHARD_INGESTION_THROUGHPUT_MIB_PER_SEC * 2 / 10

/-- A metastore `OpenShardSubrequest`. -/
structure OpenShardSubrequest where
  subrequest_id : Nat
  index_uid : Nat
  source_id : Nat
  shard_id : Nat
  leader_id : Nat
  follower_id : Option Nat
deriving DecidableEq, Repr

/-- A metastore `OpenShardSubresponse` carrying the durably opened shard. -/
structure OpenShardSubresponse where
  subrequest_id : Nat
  open_shard : Shard
deriving DecidableEq, Repr

/-- An ingester `InitShardSubrequest`. -/
structure InitShardSubrequest where
  subrequest_id : Nat
  shard : Shard
deriving DecidableEq, Repr

/-- An ingester `InitShardSuccess`. -/
structure InitShardSuccess where
  subrequest_id : Nat
  shard : Shard
deriving DecidableEq, Repr

/-- An ingester `InitShardFailure`. -/
structure InitShardFailure where
  subrequest_id : Nat
  index_uid : Nat
  source_id : Nat
  shard_id : Nat
deriving DecidableEq, Repr

/-- The `InitShardsResponse` aggregated by the shard initializer. -/
structure InitShardsResponse where
  successes : List InitShardSuccess
  failures : List InitShardFailure
deriving DecidableEq, Repr

/-- The oracle for a per-leader `init_shards` RPC: an error stands for both a
transport error and a timeout (the controller handles them identically). -/
abbrev InitRpc := Nat → List InitShardSubrequest → Except Unit InitShardsResponse

/-- The oracle for the metastore `open_shards` call. -/
abbrev MetastoreRpc := List OpenShardSubrequest → Except Unit (List OpenShardSubresponse)

/-- Append a subrequest to its leader's group, preserving first-encounter
order of leaders. -/
def add_to_leader_group : List (Nat × List InitShardSubrequest) → Nat →
    InitShardSubrequest → List (Nat × List InitShardSubrequest)
  | [], key, x => [(key, [x])]
  | g :: rest, key, x =>
      if g.1 == key then (g.1, g.2 ++ [x]) :: rest
      else g :: add_to_leader_group rest key x

/-- The failures fabricated for a whole per-leader batch when the leader is
absent from the pool or its RPC errors out. -/
def init_shard_failures_of (subs : List InitShardSubrequest) : List InitShardFailure :=
  subs.map (fun sub =>
    InitShardFailure.mk sub.subrequest_id sub.shard.index_uid sub.shard.source_id
      sub.shard.shard_id)

/-- Group the init subrequests by their shard's leader, in first-encounter
order. -/
def group_by_leader (subs : List InitShardSubrequest) : List (Nat × List InitShardSubrequest) :=
  subs.foldl (fun g x => add_to_leader_group g x.shard.leader_id x) []

/-- One step of the initializer's per-leader fold: a leader absent from the
pool or an erroring RPC turns its whole batch into failures; an answering
leader's successes and failures are appended as-is. -/
def init_step (pool : List Nat) (init_rpc : InitRpc) (acc : InitShardsResponse)
    (g : Nat × List InitShardSubrequest) : InitShardsResponse :=
  if pool.contains g.1 then
    match init_rpc g.1 g.2 with
    | Except.ok resp =>
        InitShardsResponse.mk (acc.successes ++ resp.successes)
          (acc.failures ++ resp.failures)
    | Except.error _ =>
        InitShardsResponse.mk acc.successes (acc.failures ++ init_shard_failures_of g.2)
  else
    InitShardsResponse.mk acc.successes (acc.failures ++ init_shard_failures_of g.2)

/-- The shard initializer (`IngestController::init_shards`): group the freshly
opened shards by leader and fold the per-leader init outcomes. -/
def init_shards (pool : List Nat) (init_rpc : InitRpc)
    (open_shards_subresponses : List OpenShardSubresponse) : InitShardsResponse :=
  let subrequests := open_shards_subresponses.map (fun r =>
    InitShardSubrequest.mk r.subrequest_id r.open_shard)
  (group_by_leader subrequests).foldl (init_step pool init_rpc)
    (InitShardsResponse.mk [] [])

/-- Primary key of a shard, as carried by `CloseShardsRequest`. -/
structure ShardPKey where
  index_uid : Nat
  source_id : Nat
  shard_id : Nat
deriving DecidableEq, Repr

/-- The oracle for a per-leader `close_shards` RPC returning the
successfully closed shard pkeys. -/
abbrev CloseRpc := Nat → List ShardPKey → Except Unit (List ShardPKey)

/-- `IngestController::try_scale_up_shards`: acquire one up-permit (bail out
when unavailable), allocate one shard, commit it to the metastore, initialize
it on its leader; on every failure the permit is released and the model left
untouched, on success the initialized shards are inserted and the permit is
consumed. The minted shard id is `next_shard_id`. -/
def try_scale_up_shards (replication_factor : Nat) (pool : List Nat)
    (metastore_open_shards : MetastoreRpc) (init_rpc : InitRpc) (next_shard_id : Nat)
    (source_uid : SourceUid) (m : ControlPlaneModel) : ControlPlaneModel :=
  let acq := m.acquire_scaling_permits source_uid ScalingMode.Up 1
  if !acq.2 then m
  else
    let m1 := acq.1
    match allocate_shards replication_factor pool 1 [] m1 with
    | none => m1.release_scaling_permits source_uid ScalingMode.Up 1
    | some [] => m1.release_scaling_permits source_uid ScalingMode.Up 1
    | some ((leader_id, follower_id) :: _) =>
        let sub := OpenShardSubrequest.mk 0 source_uid.index_uid source_uid.source_id
          next_shard_id leader_id follower_id
        match metastore_open_shards [sub] with
        | Except.error _ => m1.release_scaling_permits source_uid ScalingMode.Up 1
        | Except.ok subresponses =>
            let init_shards_response := init_shards pool init_rpc subresponses
            if init_shards_response.successes.isEmpty then
              m1.release_scaling_permits source_uid ScalingMode.Up 1
            else
              init_shards_response.successes.foldl
                (fun mm suc => mm.insert_shards [suc.shard]) m1

/-- `IngestController::try_scale_down_shards`: acquire one down-permit, pick
the scale-down candidate, resolve its leader in the pool, close the shard on
the leader and mark it closed in the model; every failure path releases the
permit. -/
def try_scale_down_shards (pool : List Nat) (close_rpc : CloseRpc)
    (source_uid : SourceUid) (m : ControlPlaneModel) : ControlPlaneModel :=
  let acq := m.acquire_scaling_permits source_uid ScalingMode.Down 1
  if !acq.2 then m
  else
    let m1 := acq.1
    match find_scale_down_candidate source_uid m1 with
    | none => m1.release_scaling_permits source_uid ScalingMode.Down 1
    | some (leader_id, shard_id) =>
        if !(pool.contains leader_id) then
          m1.release_scaling_permits source_uid ScalingMode.Down 1
        else
          match close_rpc leader_id
            [ShardPKey.mk source_uid.index_uid source_uid.source_id shard_id] with
          | Except.error _ => m1.release_scaling_permits source_uid ScalingMode.Down 1
          | Except.ok _ => m1.close_shards source_uid [shard_id]

/-- A `LocalShardsUpdate` pushed by an ingester. -/
structure LocalShardsUpdate where
  leader_id : Nat
  source_uid : SourceUid
  shard_infos : List ShardInfo
deriving DecidableEq, Repr

/-- `IngestController::handle_local_shards_update`: feed the samples into
`Model.update_shards`, then attempt a scale-up when the fresh average rate
reaches the scale-up threshold, or a scale-down when it is at most the
scale-down threshold and more than one shard is open. The second component
records which scaling attempt (if any) was invoked. -/
def handle_local_shards_update (replication_factor : Nat) (pool : List Nat)
    (metastore_open_shards : MetastoreRpc) (init_rpc : InitRpc) (close_rpc : CloseRpc)
    (next_shard_id : Nat) (local_shards_update : LocalShardsUpdate)
    (m : ControlPlaneModel) : ControlPlaneModel × Option ScalingMode :=
  let upd := m.update_shards local_shards_update.source_uid local_shards_update.shard_infos
  let shard_stats := upd.2
  if SCALE_UP_SHARDS_THRESHOLD_MIB_PER_SEC ≤ shard_stats.avg_ingestion_rate then
    (try_scale_up_shards replication_factor pool metastore_open_shards init_rpc
      next_shard_id local_shards_update.source_uid upd.1, some ScalingMode.Up)
  else if shard_stats.avg_ingestion_rate ≤ SCALE_DOWN_SHARDS_THRESHOLD_MIB_PER_SEC ∧
      shard_stats.num_open_shards > 1 then
    (try_scale_down_shards pool close_rpc local_shards_update.source_uid upd.1,
      some ScalingMode.Down)
  else (upd.1, none)

/-- Claim C6: a scale-up is attempted iff the fresh average ingestion rate is
at least 4.0 MiB/s; a scale-down is attempted iff the fresh average rate is
at most 1.0 MiB/s and more than one shard is open; otherwise neither scaling
attempt is invoked. -/
theorem claim_c6_autoscaler_thresholds (R : Nat) (pool : List Nat) (mo : MetastoreRpc)
    (ir : InitRpc) (cr : CloseRpc) (nid : Nat) (u : LocalShardsUpdate)
    (m : ControlPlaneModel) :
    ((handle_local_shards_update R pool mo ir cr nid u m).2 = some ScalingMode.Up ↔
      (4 : ℚ) ≤ (m.update_shards u.source_uid u.shard_infos).2.avg_ingestion_rate) ∧
    ((handle_local_shards_update R pool mo ir cr nid u m).2 = some ScalingMode.Down ↔
      ((m.update_shards u.source_uid u.shard_infos).2.avg_ingestion_rate ≤ 1 ∧
        1 < (m.update_shards u.source_uid u.shard_infos).2.num_open_shards)) ∧
    ((handle_local_shards_update R pool mo ir cr nid u m).2 = none ↔
      (¬ (4 : ℚ) ≤ (m.update_shards u.source_uid u.shard_infos).2.avg_ingestion_rate ∧
        ¬ ((m.update_shards u.source_uid u.shard_infos).2.avg_ingestion_rate ≤ 1 ∧
          1 < (m.update_shards u.source_uid u.shard_infos).2.num_open_shards))) := by
  have hup : SCALE_UP_SHARDS_THRESHOLD_MIB_PER_SEC = 4 := by
    norm_num [SCALE_UP_SHARDS_THRESHOLD_MIB_PER_SEC,
      MAX_SHARD_INGESTION_THROUGHPUT_MIB_PER_SEC]
  have hdown : SCALE_DOWN_SHARDS_THRESHOLD_MIB_PER_SEC = 1 := by
    norm_num [SCALE_DOWN_SHARDS_THRESHOLD_MIB_PER_SEC,
      MAX_SHARD_INGESTION_THROUGHPUT_MIB_PER_SEC]
  unfold handle_local_shards_update
  rw [hup, hdown]
  dsimp only
  set avg := (m.update_shards u.source_uid u.shard_infos).2.avg_ingestion_rate with havg
  set nos := (m.update_shards u.source_uid u.shard_infos).2.num_open_shards with hnos
  split_ifs with h1 h2
  · refine ⟨by simp [h1], ?_, ?_⟩
    · simp only [Option.some.injEq]
      constructor
      · intro h
        exact absurd h (by decide)
      · rintro ⟨hle, -⟩
        linarith
    · constructor
      · intro h
        exact h.elim
      · rintro ⟨hcon, -⟩
        exact absurd h1 hcon
  · refine ⟨?_, by simp [h2], ?_⟩
    · simp only [Option.some.injEq]
      constructor
      · intro h
        exact absurd h (by decide)
      · intro hge
        exact absurd hge h1
    · constructor
      · intro h
        exact h.elim
      · rintro ⟨-, hcon⟩
        exact absurd h2 hcon
  · refine ⟨?_, ?_, by simp [h1, h2]⟩
    · constructor
      · intro h
        exact h.elim
      · intro hge
        exact absurd hge h1
    · constructor
      · intro h
        exact h.elim
      · intro hd
        exact absurd hd h2

/-! ### Permit accounting lemmas -/

lemma permits_with_permits (m : ControlPlaneModel) (mode : ScalingMode)
    (ps : List (SourceUid × Nat)) : (m.with_permits mode ps).permits mode = ps := by
  cases mode <;> rfl

lemma with_permits_with_permits (m : ControlPlaneModel) (mode : ScalingMode)
    (ps ps' : List (SourceUid × Nat)) :
    (m.with_permits mode ps).with_permits mode ps' = m.with_permits mode ps' := by
  cases mode <;> rfl

lemma with_permits_self (m : ControlPlaneModel) (mode : ScalingMode) :
    m.with_permits mode (m.permits mode) = m := by
  cases mode <;> rfl

lemma update_first_permit_cancel (su : SourceUid) (num : Nat) :
    ∀ (ps : List (SourceUid × Nat)) (entry : SourceUid × Nat),
      ps.find? (fun p => p.1 == su) = some entry → num ≤ entry.2 →
      update_first_permit su (fun c => c + num)
        (update_first_permit su (fun c => c - num) ps) = ps := by
  intro ps
  induction ps with
  | nil => intro entry h _; simp [List.find?] at h
  | cons p rest ih =>
      intro entry hfind hle
      by_cases hp : (p.1 == su) = true
      · have hsome : some p = some entry :=
          (@List.find?_cons_of_pos _ (fun q => q.1 == su) p rest hp).symm.trans hfind
        have hpe : p = entry := Option.some.inj hsome
        subst hpe
        have hinner : update_first_permit su (fun c => c - num) (p :: rest) =
            (p.1, p.2 - num) :: rest := by
          unfold update_first_permit
          rw [if_pos hp]
        rw [hinner]
        unfold update_first_permit
        dsimp only
        rw [if_pos hp]
        have hc : p.2 - num + num = p.2 := by omega
        rw [hc]
      · have hfind' : rest.find? (fun q => q.1 == su) = some entry :=
          (@List.find?_cons_of_neg _ (fun q => q.1 == su) p rest hp).symm.trans hfind
        have hinner : update_first_permit su (fun c => c - num) (p :: rest) =
            p :: update_first_permit su (fun c => c - num) rest := by
          unfold update_first_permit
          rw [if_neg hp]
          cases rest <;> rfl
        rw [hinner]
        unfold update_first_permit
        rw [if_neg hp, ih entry hfind' hle]

lemma acquire_release_cancel (m : ControlPlaneModel) (su : SourceUid) (mode : ScalingMode)
    (num : Nat) (h : (m.acquire_scaling_permits su mode num).2 = true) :
    (m.acquire_scaling_permits su mode num).1.release_scaling_permits su mode num = m := by
  unfold ControlPlaneModel.acquire_scaling_permits at h ⊢
  cases hfind : (m.permits mode).find? (fun p => p.1 == su) with
  | none =>
      rw [hfind] at h
      simp at h
  | some entry =>
      rw [hfind] at h
      dsimp only at h ⊢
      by_cases hle : num ≤ entry.2
      · rw [if_pos hle]
        dsimp only
        unfold ControlPlaneModel.release_scaling_permits
        rw [permits_with_permits, with_permits_with_permits,
          update_first_permit_cancel su num (m.permits mode) entry hfind hle,
          with_permits_self]
      · rw [if_neg hle] at h
        simp at h

lemma acquire_permits_eq (m : ControlPlaneModel) (su : SourceUid) (mode : ScalingMode)
    (num : Nat) (h : (m.acquire_scaling_permits su mode num).2 = true) :
    ((m.acquire_scaling_permits su mode num).1).permits mode =
      update_first_permit su (fun c => c - num) (m.permits mode) := by
  unfold ControlPlaneModel.acquire_scaling_permits at h ⊢
  cases hfind : (m.permits mode).find? (fun p => p.1 == su) with
  | none =>
      rw [hfind] at h
      simp at h
  | some entry =>
      rw [hfind] at h
      dsimp only at h ⊢
      by_cases hle : num ≤ entry.2
      · rw [if_pos hle]
        dsimp only
        rw [permits_with_permits]
      · rw [if_neg hle] at h
        simp at h

lemma insert_shard_up_permits (m : ControlPlaneModel) (x : Shard) :
    (m.insert_shard x).up_permits = m.up_permits := by
  unfold ControlPlaneModel.insert_shard
  split_ifs <;> rfl

lemma insert_shards_up_permits : ∀ (xs : List Shard) (m : ControlPlaneModel),
    (m.insert_shards xs).up_permits = m.up_permits := by
  intro xs
  induction xs with
  | nil => intro m; rfl
  | cons x rest ih =>
      intro m
      unfold ControlPlaneModel.insert_shards at ih ⊢
      simp only [List.foldl_cons]
      rw [ih, insert_shard_up_permits]

lemma foldl_insert_success_up_permits :
    ∀ (sucs : List InitShardSuccess) (m : ControlPlaneModel),
      (sucs.foldl (fun mm suc => mm.insert_shards [suc.shard]) m).up_permits =
        m.up_permits := by
  intro sucs
  induction sucs with
  | nil => intro m; rfl
  | cons suc rest ih =>
      intro m
      simp only [List.foldl_cons]
      rw [ih, insert_shards_up_permits]

/-- Claim C7: in every `try_scale_up_shards` call that acquires an up-permit,
each failure path (allocator refusal, metastore error, or an init outcome with
zero successes) releases the permit and inserts no shard, leaving the model
exactly as before the call; on the success path the permit stays consumed
(the up-permit bucket keeps its decremented count) and every init-success
shard is inserted into the model. -/
theorem claim_c7_scale_up_permit_accounting (R : Nat) (pool : List Nat)
    (mo : MetastoreRpc) (ir : InitRpc) (nid : Nat) (su : SourceUid) (m : ControlPlaneModel)
    (hacq : (m.acquire_scaling_permits su ScalingMode.Up 1).2 = true) :
    ((allocate_shards R pool 1 [] (m.acquire_scaling_permits su ScalingMode.Up 1).1 = none ∨
      allocate_shards R pool 1 [] (m.acquire_scaling_permits su ScalingMode.Up 1).1 =
        some []) →
      try_scale_up_shards R pool mo ir nid su m = m) ∧
    (∀ leader follower rest,
      allocate_shards R pool 1 [] (m.acquire_scaling_permits su ScalingMode.Up 1).1 =
        some ((leader, follower) :: rest) →
      (∀ e, mo [OpenShardSubrequest.mk 0 su.index_uid su.source_id nid leader follower] =
          Except.error e →
        try_scale_up_shards R pool mo ir nid su m = m) ∧
      (∀ resps, mo [OpenShardSubrequest.mk 0 su.index_uid su.source_id nid leader follower] =
          Except.ok resps →
        ((init_shards pool ir resps).successes = [] →
          try_scale_up_shards R pool mo ir nid su m = m) ∧
        ((init_shards pool ir resps).successes ≠ [] →
          try_scale_up_shards R pool mo ir nid su m =
            (init_shards pool ir resps).successes.foldl
              (fun mm suc => mm.insert_shards [suc.shard])
              (m.acquire_scaling_permits su ScalingMode.Up 1).1 ∧
          (try_scale_up_shards R pool mo ir nid su m).up_permits =
            update_first_permit su (fun c => c - 1) m.up_permits))) := by
  have hrel := acquire_release_cancel m su ScalingMode.Up 1 hacq
  constructor
  · intro halloc
    unfold try_scale_up_shards
    dsimp only
    rw [hacq]
    rcases halloc with halloc | halloc <;> rw [halloc] <;> exact hrel
  · intro leader follower rest halloc
    constructor
    · intro e hmo
      unfold try_scale_up_shards
      dsimp only
      rw [hacq, halloc]
      dsimp only
      rw [hmo]
      exact hrel
    · intro resps hmo
      constructor
      · intro hinit
        unfold try_scale_up_shards
        dsimp only
        rw [hacq, halloc]
        dsimp only
        rw [hmo]
        dsimp only
        rw [hinit]
        exact hrel
      · intro hinit
        have hinit' : (init_shards pool ir resps).successes.isEmpty = false := by
          cases hsucc : (init_shards pool ir resps).successes with
          | nil => exact absurd hsucc hinit
          | cons a t => rfl
        have hres : try_scale_up_shards R pool mo ir nid su m =
            (init_shards pool ir resps).successes.foldl
              (fun mm suc => mm.insert_shards [suc.shard])
              (m.acquire_scaling_permits su ScalingMode.Up 1).1 := by
          unfold try_scale_up_shards
          dsimp only
          rw [hacq, halloc]
          dsimp only
          rw [hmo]
          dsimp only
          rw [hinit']
          rfl
        refine ⟨hres, ?_⟩
        rw [hres, foldl_insert_success_up_permits]
        have := acquire_permits_eq m su ScalingMode.Up 1 hacq
        exact this

/-- Witness for C7 at a concrete input: one up-permit is available and the
allocator refuses (empty pool), so the call returns with the model — permits
included — exactly as before. -/
theorem claim_c7_witness :
    ((⟨[], [], [], [(⟨1, 1⟩, 1)], []⟩ : ControlPlaneModel).acquire_scaling_permits ⟨1, 1⟩
      ScalingMode.Up 1).2 = true ∧
    try_scale_up_shards 1 [] (fun _ => Except.error ()) (fun _ _ => Except.error ()) 100
      ⟨1, 1⟩ ⟨[], [], [], [(⟨1, 1⟩, 1)], []⟩ = ⟨[], [], [], [(⟨1, 1⟩, 1)], []⟩ :=
  ⟨by decide,
   (claim_c7_scale_up_permit_accounting 1 [] (fun _ => Except.error ())
     (fun _ _ => Except.error ()) 100 ⟨1, 1⟩ ⟨[], [], [], [(⟨1, 1⟩, 1)], []⟩
     (by decide)).1 (Or.inl (by decide))⟩

/-! ### Open-shards resolver (`get_or_create_open_shards`) -/

/-- A router subrequest (`GetOrCreateOpenShardsSubrequest`). -/
structure GetOrCreateOpenShardsSubrequest where
  subrequest_id : Nat
  index_id : Nat
  source_id : Nat
deriving DecidableEq, Repr

/-- A router `closed_shards` observation (`ShardIds`). -/
structure ShardIds where
  index_uid : Nat
  source_id : Nat
  shard_ids : List Nat
deriving DecidableEq, Repr

/-- The router request (`GetOrCreateOpenShardsRequest`). -/
structure GetOrCreateOpenShardsRequest where
  subrequests : List GetOrCreateOpenShardsSubrequest
  closed_shards : List ShardIds
  unavailable_leaders : List Nat
deriving DecidableEq, Repr

/-- Failure reasons surfaced to the router. -/
inductive GetOrCreateOpenShardsFailureReason where
  | IndexNotFound
  | SourceNotFound
  | NoIngestersAvailable
deriving DecidableEq, Repr

/-- A per-subrequest failure (`GetOrCreateOpenShardsFailure`). -/
structure GetOrCreateOpenShardsFailure where
  subrequest_id : Nat
  index_id : Nat
  source_id : Nat
  reason : GetOrCreateOpenShardsFailureReason
deriving DecidableEq, Repr

/-- A per-subrequest success (`GetOrCreateOpenShardsSuccess`). -/
structure GetOrCreateOpenShardsSuccess where
  subrequest_id : Nat
  index_uid : Nat
  source_id : Nat
  open_shards : List Shard
deriving DecidableEq, Repr

/-- The router response (`GetOrCreateOpenShardsResponse`). -/
structure GetOrCreateOpenShardsResponse where
  successes : List GetOrCreateOpenShardsSuccess
  failures : List GetOrCreateOpenShardsFailure
deriving DecidableEq, Repr

/-- `IngestController::handle_closed_shards`: apply each router-reported
closed-shard observation to the model. -/
def handle_closed_shards (closed_shards : List ShardIds) (m : ControlPlaneModel) :
    ControlPlaneModel :=
  closed_shards.foldl (fun mm cs =>
    mm.close_shards (SourceUid.mk cs.index_uid cs.source_id) cs.shard_ids) m

/-- `IngestController::handle_unavailable_leaders`: leaders reported
unavailable that are also absent from the pool are confirmed and their shards
marked unavailable; a reported leader still in the pool is ignored. -/
def handle_unavailable_leaders (pool : List Nat) (unavailable_leaders : List Nat)
    (m : ControlPlaneModel) : ControlPlaneModel :=
  let confirmed := unavailable_leaders.filter (fun l => !(pool.contains l))
  if confirmed.isEmpty then m else m.set_shards_as_unavailable confirmed

/-- The per-subrequest resolution loop of `get_or_create_open_shards`:
unknown index yields an `IndexNotFound` failure, unknown source a
`SourceNotFound` failure, a non-empty open-shard list an immediate success,
and an empty one queues an `OpenShardSubrequest` with a freshly minted shard
id (ids are minted in sequence from `next_shard_id`; leader and follower are
left blank for the allocator to fill in). -/
def resolve_subrequests (m : ControlPlaneModel) (unavailable_leaders : List Nat) :
    List GetOrCreateOpenShardsSubrequest → Nat →
    List GetOrCreateOpenShardsSuccess × List GetOrCreateOpenShardsFailure ×
      List OpenShardSubrequest × Nat
  | [], next_shard_id => ([], [], [], next_shard_id)
  | sub :: rest, next_shard_id =>
      match m.index_uid_of sub.index_id with
      | none =>
          let r := resolve_subrequests m unavailable_leaders rest next_shard_id
          (r.1, GetOrCreateOpenShardsFailure.mk sub.subrequest_id sub.index_id sub.source_id
            GetOrCreateOpenShardsFailureReason.IndexNotFound :: r.2.1, r.2.2.1, r.2.2.2)
      | some index_uid =>
          match m.find_open_shards index_uid sub.source_id unavailable_leaders with
          | none =>
              let r := resolve_subrequests m unavailable_leaders rest next_shard_id
              (r.1, GetOrCreateOpenShardsFailure.mk sub.subrequest_id sub.index_id
                sub.source_id GetOrCreateOpenShardsFailureReason.SourceNotFound :: r.2.1,
                r.2.2.1, r.2.2.2)
          | some open_shard_entries =>
              if open_shard_entries.isEmpty then
                let r := resolve_subrequests m unavailable_leaders rest (next_shard_id + 1)
                (r.1, r.2.1,
                  OpenShardSubrequest.mk sub.subrequest_id index_uid sub.source_id
                    next_shard_id 0 none :: r.2.2.1, r.2.2.2)
              else
                let r := resolve_subrequests m unavailable_leaders rest next_shard_id
                (GetOrCreateOpenShardsSuccess.mk sub.subrequest_id index_uid sub.source_id
                  open_shard_entries :: r.1, r.2.1, r.2.2.1, r.2.2.2)

/-- Stamp the allocator's leader/follower pairs into the queued subrequests
(the code zips the mutable subrequest iterator with the pair list; a missing
pair leaves a subrequest unstamped). -/
def stamp_leaders : List OpenShardSubrequest → List (Nat × Option Nat) →
    List OpenShardSubrequest
  | [], _ => []
  | subs, [] => subs
  | sub :: subs, p :: ps =>
      { sub with leader_id := p.1, follower_id := p.2 } :: stamp_leaders subs ps

/-- The shard a faithful metastore opens for a stamped subrequest: open, at
the subrequest's source, shard id, leader and follower. -/
def open_shard_of (sub : OpenShardSubrequest) : Shard :=
  Shard.mk sub.shard_id sub.index_uid sub.source_id sub.leader_id sub.follower_id
    ShardState.Open 0 0

/-- The per-init-success loop of `get_or_create_open_shards`: insert the
initialized shard, then look up the source's open shards and emit a success
carrying them; a source that vanished emits nothing. -/
def process_init_successes (unavailable_leaders : List Nat) :
    List InitShardSuccess → ControlPlaneModel →
      ControlPlaneModel × List GetOrCreateOpenShardsSuccess
  | [], m => (m, [])
  | suc :: rest, m =>
      let m1 := m.insert_shards [suc.shard]
      match m1.find_open_shards suc.shard.index_uid suc.shard.source_id
        unavailable_leaders with
      | some open_shard_entries =>
          let r := process_init_successes unavailable_leaders rest m1
          (r.1, GetOrCreateOpenShardsSuccess.mk suc.subrequest_id suc.shard.index_uid
            suc.shard.source_id open_shard_entries :: r.2)
      | none => process_init_successes unavailable_leaders rest m1

/-- `IngestController::get_or_create_open_shards`: apply the closed-shard and
unavailable-leader observations, resolve each subrequest, then for the queued
ones allocate placements (total refusal fails them all with
`NoIngestersAvailable`), commit to the metastore (an error aborts the whole
call), initialize on the leaders and emit one success per init success; init
failures are dropped from the response. Returns the final model and the
call's result. -/
def get_or_create_open_shards (replication_factor : Nat) (pool : List Nat)
    (metastore_open_shards : MetastoreRpc) (init_rpc : InitRpc) (next_shard_id : Nat)
    (request : GetOrCreateOpenShardsRequest) (m : ControlPlaneModel) :
    ControlPlaneModel × Except Unit GetOrCreateOpenShardsResponse :=
  let m1 := handle_unavailable_leaders pool request.unavailable_leaders
    (handle_closed_shards request.closed_shards m)
  let r := resolve_subrequests m1 request.unavailable_leaders request.subrequests
    next_shard_id
  let successes := r.1
  let failures := r.2.1
  let open_shards_subrequests := r.2.2.1
  if open_shards_subrequests.isEmpty then
    (m1, Except.ok (GetOrCreateOpenShardsResponse.mk successes failures))
  else
    match allocate_shards replication_factor pool open_shards_subrequests.length
      request.unavailable_leaders m1 with
    | none =>
        (m1, Except.ok (GetOrCreateOpenShardsResponse.mk successes
          (failures ++ open_shards_subrequests.map (fun sub =>
            GetOrCreateOpenShardsFailure.mk sub.subrequest_id sub.index_uid sub.source_id
              GetOrCreateOpenShardsFailureReason.NoIngestersAvailable))))
    | some leader_follower_pairs =>
        let stamped := stamp_leaders open_shards_subrequests leader_follower_pairs
        match metastore_open_shards stamped with
        | Except.error e => (m1, Except.error e)
        | Except.ok subresponses =>
            let init_shards_response := init_shards pool init_rpc subresponses
            let pr := process_init_successes request.unavailable_leaders
              init_shards_response.successes m1
            (pr.1, Except.ok (GetOrCreateOpenShardsResponse.mk (successes ++ pr.2)
              failures))

/-- Counterexample for claim C1: a request with one subrequest for a known
source with no open shards; allocation and the metastore commit succeed, but
the leader's `init_shards` RPC errors. The call returns `Ok` with an empty
response: the subrequest appears in neither `successes` nor `failures`
(0 + 0 is not 1), so the response does not list every subrequest. -/
theorem claim_c1_counterexample :
    (get_or_create_open_shards 1 [5]
      (fun subs => Except.ok (subs.map (fun sub =>
        OpenShardSubresponse.mk sub.subrequest_id (open_shard_of sub))))
      (fun _ _ => Except.error ()) 100
      (GetOrCreateOpenShardsRequest.mk [GetOrCreateOpenShardsSubrequest.mk 0 1 3] [] [])
      (ControlPlaneModel.mk [(1, 10)] [SourceUid.mk 10 3] [] [] [])).2 =
      Except.ok (GetOrCreateOpenShardsResponse.mk [] []) ∧
    ([] : List GetOrCreateOpenShardsSuccess).length +
      ([] : List GetOrCreateOpenShardsFailure).length = 0 ∧
    [GetOrCreateOpenShardsSubrequest.mk 0 1 3].length = 1 := by
  exact ⟨rfl, rfl, rfl⟩

/-- Claim C9: when the metastore `open_shards` call fails, the whole call
returns the error, but the model mutations performed for the request's
`closed_shards` and `unavailable_leaders` observations persist — the returned
model is exactly the observed model, with no rollback. -/
theorem claim_c9_metastore_error_not_atomic (R : Nat) (pool : List Nat) (mo : MetastoreRpc)
    (ir : InitRpc) (nid : Nat) (req : GetOrCreateOpenShardsRequest)
    (m m1 : ControlPlaneModel)
    (r : List GetOrCreateOpenShardsSuccess × List GetOrCreateOpenShardsFailure ×
      List OpenShardSubrequest × Nat)
    (pairs : List (Nat × Option Nat)) (e : Unit)
    (hm1 : m1 = handle_unavailable_leaders pool req.unavailable_leaders
      (handle_closed_shards req.closed_shards m))
    (hr : r = resolve_subrequests m1 req.unavailable_leaders req.subrequests nid)
    (hne : r.2.2.1 ≠ [])
    (halloc : allocate_shards R pool r.2.2.1.length req.unavailable_leaders m1 = some pairs)
    (hmo : mo (stamp_leaders r.2.2.1 pairs) = Except.error e) :
    get_or_create_open_shards R pool mo ir nid req m = (m1, Except.error e) := by
  subst hm1
  subst hr
  unfold get_or_create_open_shards
  dsimp only
  have hemp : (resolve_subrequests
      (handle_unavailable_leaders pool req.unavailable_leaders
        (handle_closed_shards req.closed_shards m)) req.unavailable_leaders
      req.subrequests nid).2.2.1.isEmpty = false := by
    cases hcase : (resolve_subrequests
        (handle_unavailable_leaders pool req.unavailable_leaders
          (handle_closed_shards req.closed_shards m)) req.unavailable_leaders
        req.subrequests nid).2.2.1 with
    | nil => exact absurd hcase hne
    | cons a t => rfl
  rw [hemp]
  simp only [Bool.false_eq_true, if_false]
  rw [halloc]
  dsimp only
  rw [hmo]

/-- Witness for C9 at a concrete input: the router reports shard 1 of source
(10, 3) closed and the metastore errors; the call returns the error together
with the model in which shard 1 is Closed — and that model differs from the
pre-call model, so the observation was not rolled back. -/
theorem claim_c9_witness :
    get_or_create_open_shards 1 [5] (fun _ => Except.error ())
      (fun _ subs => Except.ok (InitShardsResponse.mk
        (subs.map (fun sub => InitShardSuccess.mk sub.subrequest_id sub.shard)) [])) 100
      (GetOrCreateOpenShardsRequest.mk [GetOrCreateOpenShardsSubrequest.mk 0 1 3]
        [ShardIds.mk 10 3 [1]] [])
      (ControlPlaneModel.mk [(1, 10)] [SourceUid.mk 10 3]
        [Shard.mk 1 10 3 5 none ShardState.Open 0 0] [] []) =
      (ControlPlaneModel.mk [(1, 10)] [SourceUid.mk 10 3]
        [Shard.mk 1 10 3 5 none ShardState.Closed 0 0] [] [], Except.error ()) ∧
    (ControlPlaneModel.mk [(1, 10)] [SourceUid.mk 10 3]
        [Shard.mk 1 10 3 5 none ShardState.Closed 0 0] [] []) ≠
      (ControlPlaneModel.mk [(1, 10)] [SourceUid.mk 10 3]
        [Shard.mk 1 10 3 5 none ShardState.Open 0 0] [] []) := by
  constructor
  · exact claim_c9_metastore_error_not_atomic 1 [5] (fun _ => Except.error ())
      (fun _ subs => Except.ok (InitShardsResponse.mk
        (subs.map (fun sub => InitShardSuccess.mk sub.subrequest_id sub.shard)) [])) 100
      (GetOrCreateOpenShardsRequest.mk [GetOrCreateOpenShardsSubrequest.mk 0 1 3]
        [ShardIds.mk 10 3 [1]] [])
      (ControlPlaneModel.mk [(1, 10)] [SourceUid.mk 10 3]
        [Shard.mk 1 10 3 5 none ShardState.Open 0 0] [] [])
      (ControlPlaneModel.mk [(1, 10)] [SourceUid.mk 10 3]
        [Shard.mk 1 10 3 5 none ShardState.Closed 0 0] [] [])
      (resolve_subrequests (ControlPlaneModel.mk [(1, 10)] [SourceUid.mk 10 3]
        [Shard.mk 1 10 3 5 none ShardState.Closed 0 0] [] []) []
        [GetOrCreateOpenShardsSubrequest.mk 0 1 3] 100)
      [(5, none)] () (by decide) rfl (by decide) (by decide) rfl
  · decide

/-! ### Initializer lemmas -/

/-- All subrequests held by a group list. -/
def flat_groups (gs : List (Nat × List InitShardSubrequest)) : List InitShardSubrequest :=
  (gs.map (fun g => g.2)).flatten

lemma flat_groups_nil : flat_groups [] = [] := rfl

lemma flat_groups_cons (g : Nat × List InitShardSubrequest)
    (rest : List (Nat × List InitShardSubrequest)) :
    flat_groups (g :: rest) = g.2 ++ flat_groups rest := by
  simp [flat_groups]

lemma flat_groups_add_length (key : Nat) (x : InitShardSubrequest) :
    ∀ gs : List (Nat × List InitShardSubrequest),
      (flat_groups (add_to_leader_group gs key x)).length = (flat_groups gs).length + 1 := by
  intro gs
  induction gs with
  | nil => simp [add_to_leader_group, flat_groups]
  | cons g rest ih =>
      by_cases hg : (g.1 == key) = true
      · simp only [add_to_leader_group, hg, if_true, flat_groups_cons, List.length_append]
        simp only [List.length_append, List.length_singleton]
        omega
      · simp only [add_to_leader_group, hg, Bool.false_eq_true, if_false, flat_groups_cons,
          List.length_append, ih]
        omega

lemma flat_groups_add_mem (key : Nat) (x y : InitShardSubrequest) :
    ∀ gs, y ∈ flat_groups (add_to_leader_group gs key x) ↔ y ∈ flat_groups gs ∨ y = x := by
  intro gs
  induction gs with
  | nil => simp [add_to_leader_group, flat_groups]
  | cons g rest ih =>
      by_cases hg : (g.1 == key) = true
      · simp only [add_to_leader_group, hg, if_true, flat_groups_cons, List.mem_append,
          List.mem_singleton]
        tauto
      · simp only [add_to_leader_group, hg, Bool.false_eq_true, if_false, flat_groups_cons,
          List.mem_append, ih]
        tauto

lemma add_group_keys (key : Nat) (x : InitShardSubrequest) (hx : x.shard.leader_id = key) :
    ∀ gs, (∀ g ∈ gs, g.2 ≠ [] ∧ ∀ y ∈ g.2, y.shard.leader_id = g.1) →
      ∀ g ∈ add_to_leader_group gs key x, g.2 ≠ [] ∧ ∀ y ∈ g.2, y.shard.leader_id = g.1 := by
  intro gs
  induction gs with
  | nil =>
      intro _ g hg
      simp only [add_to_leader_group, List.mem_singleton] at hg
      subst hg
      refine ⟨by simp, ?_⟩
      intro y hy
      simp only [List.mem_singleton] at hy
      subst hy
      exact hx
  | cons g0 rest ih =>
      intro hgs g hg
      by_cases hg0 : (g0.1 == key) = true
      · simp only [add_to_leader_group, hg0, if_true, List.mem_cons] at hg
        rcases hg with hg | hg
        · subst hg
          refine ⟨by simp, ?_⟩
          intro y hy
          simp only [List.mem_append, List.mem_singleton] at hy
          rcases hy with hy | hy
          · exact (hgs g0 (by simp)).2 y hy
          · subst hy
            rw [hx]
            exact (beq_iff_eq.mp hg0).symm
        · exact hgs g (by simp [hg])
      · simp only [add_to_leader_group, hg0, Bool.false_eq_true, if_false,
          List.mem_cons] at hg
        rcases hg with hg | hg
        · subst hg
          exact hgs g (by simp)
        · exact ih (fun g' hg' => hgs g' (by simp [hg'])) g hg

lemma group_fold_spec (subs : List InitShardSubrequest) :
    ∀ (init : List (Nat × List InitShardSubrequest)),
      (flat_groups (subs.foldl (fun g x => add_to_leader_group g x.shard.leader_id x)
          init)).length = (flat_groups init).length + subs.length ∧
      (∀ y, y ∈ flat_groups (subs.foldl (fun g x =>
          add_to_leader_group g x.shard.leader_id x) init) ↔
        y ∈ flat_groups init ∨ y ∈ subs) ∧
      ((∀ g ∈ init, g.2 ≠ [] ∧ ∀ y ∈ g.2, y.shard.leader_id = g.1) →
        ∀ g ∈ subs.foldl (fun g x => add_to_leader_group g x.shard.leader_id x) init,
          g.2 ≠ [] ∧ ∀ y ∈ g.2, y.shard.leader_id = g.1) := by
  induction subs with
  | nil => intro init; simp
  | cons x rest ih =>
      intro init
      simp only [List.foldl_cons]
      obtain ⟨ih1, ih2, ih3⟩ := ih (add_to_leader_group init x.shard.leader_id x)
      refine ⟨?_, ?_, ?_⟩
      · rw [ih1, flat_groups_add_length]
        simp only [List.length_cons]
        omega
      · intro y
        rw [ih2, flat_groups_add_mem]
        simp only [List.mem_cons]
        tauto
      · intro hinit
        exact ih3 (add_group_keys x.shard.leader_id x rfl init hinit)

lemma group_by_leader_spec (subs : List InitShardSubrequest) :
    (flat_groups (group_by_leader subs)).length = subs.length ∧
    (∀ y, y ∈ flat_groups (group_by_leader subs) ↔ y ∈ subs) ∧
    (∀ g ∈ group_by_leader subs, g.2 ≠ [] ∧ ∀ y ∈ g.2, y.shard.leader_id = g.1) := by
  obtain ⟨h1, h2, h3⟩ := group_fold_spec subs []
  refine ⟨?_, ?_, ?_⟩
  · simpa [group_by_leader, flat_groups] using h1
  · intro y
    have := h2 y
    simpa [group_by_leader, flat_groups] using this
  · exact fun g hg => h3 (by simp) g hg

lemma init_fold_ideal (pool : List Nat) (ir : InitRpc)
    (hir : ∀ leader subs, ir leader subs = Except.ok (InitShardsResponse.mk
      (subs.map (fun sub => InitShardSuccess.mk sub.subrequest_id sub.shard)) [])) :
    ∀ (gs : List (Nat × List InitShardSubrequest)) (acc : InitShardsResponse),
      (∀ g ∈ gs, pool.contains g.1 = true) →
      gs.foldl (init_step pool ir) acc = InitShardsResponse.mk
        (acc.successes ++ (flat_groups gs).map (fun sub =>
          InitShardSuccess.mk sub.subrequest_id sub.shard)) acc.failures := by
  intro gs
  induction gs with
  | nil => intro acc _; simp [flat_groups]
  | cons g rest ih =>
      intro acc hpool
      have hg := hpool g (by simp)
      simp only [List.foldl_cons, init_step, hg, if_true, hir g.1 g.2]
      rw [ih _ (fun g' hg' => hpool g' (by simp [hg']))]
      simp [flat_groups_cons, List.map_append]

lemma init_shards_ideal (pool : List Nat) (ir : InitRpc)
    (hir : ∀ leader subs, ir leader subs = Except.ok (InitShardsResponse.mk
      (subs.map (fun sub => InitShardSuccess.mk sub.subrequest_id sub.shard)) []))
    (resps : List OpenShardSubresponse)
    (hleaders : ∀ r ∈ resps, r.open_shard.leader_id ∈ pool) :
    (init_shards pool ir resps).failures = [] ∧
    (init_shards pool ir resps).successes.length = resps.length ∧
    (∀ i, i ∈ (init_shards pool ir resps).successes.map (fun s => s.subrequest_id) ↔
      i ∈ resps.map (fun r => r.subrequest_id)) ∧
    (∀ suc ∈ (init_shards pool ir resps).successes,
      ∃ r ∈ resps, suc.subrequest_id = r.subrequest_id ∧ suc.shard = r.open_shard) := by
  obtain ⟨hlen, hmem, hkeys⟩ := group_by_leader_spec (resps.map (fun r =>
    InitShardSubrequest.mk r.subrequest_id r.open_shard))
  have hpool : ∀ g ∈ group_by_leader (resps.map (fun r =>
      InitShardSubrequest.mk r.subrequest_id r.open_shard)), pool.contains g.1 = true := by
    intro g hg
    obtain ⟨hne, hallk⟩ := hkeys g hg
    obtain ⟨y, hy⟩ := List.exists_mem_of_ne_nil g.2 hne
    have hyflat : y ∈ flat_groups (group_by_leader (resps.map (fun r =>
        InitShardSubrequest.mk r.subrequest_id r.open_shard))) := by
      unfold flat_groups
      rw [List.mem_flatten]
      exact ⟨g.2, List.mem_map_of_mem _ hg, hy⟩
    rw [hmem y] at hyflat
    obtain ⟨r, hr, hry⟩ := List.mem_map.mp hyflat
    have : y.shard.leader_id = g.1 := hallk y hy
    rw [← this, ← hry]
    exact List.elem_eq_true_of_mem (hleaders r hr)
  have hfold := init_fold_ideal pool ir hir _ (InitShardsResponse.mk [] []) hpool
  unfold init_shards
  dsimp only
  rw [hfold]
  simp only [List.nil_append]
  refine ⟨trivial, ?_, ?_, ?_⟩
  · simp only [List.length_map]
    rw [hlen, List.length_map]
  · intro i
    simp only [List.map_map, List.mem_map]
    constructor
    · rintro ⟨y, hy, rfl⟩
      rw [hmem y] at hy
      obtain ⟨r, hr, rfl⟩ := List.mem_map.mp hy
      exact ⟨r, hr, rfl⟩
    · rintro ⟨r, hr, rfl⟩
      refine ⟨InitShardSubrequest.mk r.subrequest_id r.open_shard, ?_, rfl⟩
      rw [hmem _]
      exact List.mem_map_of_mem _ hr
  · intro suc hsuc
    obtain ⟨y, hy, rfl⟩ := List.mem_map.mp hsuc
    rw [hmem y] at hy
    obtain ⟨r, hr, rfl⟩ := List.mem_map.mp hy
    exact ⟨r, hr, rfl, rfl⟩

lemma init_fold_successes_shards (pool : List Nat) (ir : InitRpc)
    (hir_sub : ∀ leader subs r, ir leader subs = Except.ok r →
      ∀ suc ∈ r.successes, suc.shard ∈ subs.map (fun sub => sub.shard)) :
    ∀ (gs : List (Nat × List InitShardSubrequest)) (acc : InitShardsResponse),
      ∀ suc ∈ (gs.foldl (init_step pool ir) acc).successes,
        suc.shard ∈ acc.successes.map (fun s => s.shard) ∨
          suc.shard ∈ (flat_groups gs).map (fun sub => sub.shard) := by
  intro gs
  induction gs with
  | nil => intro acc suc hsuc; exact Or.inl (List.mem_map_of_mem _ hsuc)
  | cons g rest ih =>
      intro acc suc hsuc
      simp only [List.foldl_cons] at hsuc
      by_cases hg : pool.contains g.1 = true
      · cases hrpc : ir g.1 g.2 with
        | ok resp =>
            simp only [init_step, hg, if_true, hrpc] at hsuc
            rcases ih _ suc hsuc with hin | hin
            · simp only [List.map_append, List.mem_append] at hin
              rcases hin with hin | hin
              · exact Or.inl hin
              · right
                rw [flat_groups_cons, List.map_append]
                apply List.mem_append_left
                obtain ⟨s, hs, hss⟩ := List.mem_map.mp hin
                rw [← hss]
                exact hir_sub g.1 g.2 resp hrpc s hs
            · right
              rw [flat_groups_cons, List.map_append]
              exact List.mem_append_right _ hin
        | error e =>
            simp only [init_step, hg, if_true, hrpc] at hsuc
            rcases ih _ suc hsuc with hin | hin
            · exact Or.inl hin
            · right
              rw [flat_groups_cons, List.map_append]
              exact List.mem_append_right _ hin
      · simp only [init_step, hg, Bool.false_eq_true, if_false] at hsuc
        rcases ih _ suc hsuc with hin | hin
        · exact Or.inl hin
        · right
          rw [flat_groups_cons, List.map_append]
          exact List.mem_append_right _ hin

lemma init_shards_successes_shards (pool : List Nat) (ir : InitRpc)
    (hir_sub : ∀ leader subs r, ir leader subs = Except.ok r →
      ∀ suc ∈ r.successes, suc.shard ∈ subs.map (fun sub => sub.shard))
    (resps : List OpenShardSubresponse) :
    ∀ suc ∈ (init_shards pool ir resps).successes,
      suc.shard ∈ resps.map (fun r => r.open_shard) := by
  intro suc hsuc
  obtain ⟨-, hmem, -⟩ := group_by_leader_spec (resps.map (fun r =>
    InitShardSubrequest.mk r.subrequest_id r.open_shard))
  unfold init_shards at hsuc
  dsimp only at hsuc
  rcases init_fold_successes_shards pool ir hir_sub _ _ suc hsuc with hin | hin
  · simp at hin
  · obtain ⟨y, hy, hys⟩ := List.mem_map.mp hin
    rw [hmem y] at hy
    obtain ⟨r, hr, rfl⟩ := List.mem_map.mp hy
    rw [← hys]
    exact List.mem_map_of_mem _ hr

/-! ### Resolver lemmas -/

lemma find_open_shards_some (m : ControlPlaneModel) (idx src : Nat) (U : List Nat)
    (l : List Shard) (h : m.find_open_shards idx src U = some l) :
    SourceUid.mk idx src ∈ m.sources ∧ ∀ s ∈ l, s ∈ m.shards ∧ s.is_open = true := by
  unfold ControlPlaneModel.find_open_shards at h
  split_ifs at h with hsrc
  · refine ⟨hsrc, ?_⟩
    intro s hs
    rw [← Option.some.inj h] at hs
    have hmem := List.mem_filter.mp hs
    refine ⟨hmem.1, ?_⟩
    have hp := hmem.2
    simp only [Bool.and_eq_true] at hp
    exact hp.1.2

lemma resolve_subrequests_spec (m : ControlPlaneModel) (U : List Nat) :
    ∀ (subs : List GetOrCreateOpenShardsSubrequest) (nid : Nat),
      (resolve_subrequests m U subs nid).1.length +
        (resolve_subrequests m U subs nid).2.1.length +
        (resolve_subrequests m U subs nid).2.2.1.length = subs.length ∧
      (∀ i : Nat,
        (i ∈ (resolve_subrequests m U subs nid).1.map (fun s => s.subrequest_id) ∨
          i ∈ (resolve_subrequests m U subs nid).2.1.map (fun f => f.subrequest_id) ∨
          i ∈ (resolve_subrequests m U subs nid).2.2.1.map (fun q => q.subrequest_id)) ↔
        i ∈ subs.map (fun s => s.subrequest_id)) ∧
      (∀ q ∈ (resolve_subrequests m U subs nid).2.2.1,
        SourceUid.mk q.index_uid q.source_id ∈ m.sources ∧ nid ≤ q.shard_id) ∧
      (∀ succ ∈ (resolve_subrequests m U subs nid).1,
        ∀ s ∈ succ.open_shards, s ∈ m.shards ∧ s.is_open = true) := by
  intro subs
  induction subs with
  | nil => intro nid; simp [resolve_subrequests]
  | cons sub rest ih =>
      intro nid
      cases hidx : m.index_uid_of sub.index_id with
      | none =>
          obtain ⟨ih1, ih2, ih3, ih4⟩ := ih nid
          simp only [resolve_subrequests, hidx]
          refine ⟨?_, ?_, ?_, ?_⟩
          · simp only [List.length_cons]
            omega
          · intro i
            have := ih2 i
            simp only [List.map_cons, List.mem_cons]
            tauto
          · exact ih3
          · exact ih4
      | some index_uid =>
          cases hfind : m.find_open_shards index_uid sub.source_id U with
          | none =>
              obtain ⟨ih1, ih2, ih3, ih4⟩ := ih nid
              simp only [resolve_subrequests, hidx, hfind]
              refine ⟨?_, ?_, ?_, ?_⟩
              · simp only [List.length_cons]
                omega
              · intro i
                have := ih2 i
                simp only [List.map_cons, List.mem_cons]
                tauto
              · exact ih3
              · exact ih4
          | some es =>
              by_cases hes : es.isEmpty = true
              · obtain ⟨ih1, ih2, ih3, ih4⟩ := ih (nid + 1)
                simp only [resolve_subrequests, hidx, hfind, hes, if_true]
                refine ⟨?_, ?_, ?_, ?_⟩
                · simp only [List.length_cons]
                  omega
                · intro i
                  have := ih2 i
                  simp only [List.map_cons, List.mem_cons]
                  tauto
                · intro q hq
                  simp only [List.mem_cons] at hq
                  rcases hq with hq | hq
                  · subst hq
                    exact ⟨(find_open_shards_some m index_uid sub.source_id U es hfind).1,
                      Nat.le_refl _⟩
                  · obtain ⟨hsrc, hle⟩ := ih3 q hq
                    exact ⟨hsrc, by omega⟩
                · exact ih4
              · have hes' : es.isEmpty = false := by
                  cases h : es.isEmpty
                  · rfl
                  · exact absurd h hes
                obtain ⟨ih1, ih2, ih3, ih4⟩ := ih nid
                simp only [resolve_subrequests, hidx, hfind, hes', Bool.false_eq_true,
                  if_false]
                refine ⟨?_, ?_, ?_, ?_⟩
                · simp only [List.length_cons]
                  omega
                · intro i
                  have := ih2 i
                  simp only [List.map_cons, List.mem_cons]
                  tauto
                · exact ih3
                · intro succ hsucc
                  simp only [List.mem_cons] at hsucc
                  rcases hsucc with hsucc | hsucc
                  · subst hsucc
                    exact (find_open_shards_some m index_uid sub.source_id U es hfind).2
                  · exact ih4 succ hsucc

lemma find_open_shards_none (m : ControlPlaneModel) (idx src : Nat) (U : List Nat)
    (h : m.find_open_shards idx src U = none) : SourceUid.mk idx src ∉ m.sources := by
  intro hsrc
  unfold ControlPlaneModel.find_open_shards at h
  rw [if_pos hsrc] at h
  exact Option.noConfusion h

lemma insert_shard_sources (m : ControlPlaneModel) (x : Shard) :
    (m.insert_shard x).sources = m.sources := by
  unfold ControlPlaneModel.insert_shard
  split_ifs <;> rfl

lemma insert_shards_sources : ∀ (xs : List Shard) (m : ControlPlaneModel),
    (m.insert_shards xs).sources = m.sources := by
  intro xs
  induction xs with
  | nil => intro m; rfl
  | cons x rest ih =>
      intro m
      unfold ControlPlaneModel.insert_shards at ih ⊢
      simp only [List.foldl_cons]
      rw [ih, insert_shard_sources]

lemma process_init_ids (U : List Nat) :
    ∀ (sucs : List InitShardSuccess) (m : ControlPlaneModel),
      (∀ suc ∈ sucs, SourceUid.mk suc.shard.index_uid suc.shard.source_id ∈ m.sources) →
      (process_init_successes U sucs m).2.map (fun s => s.subrequest_id) =
        sucs.map (fun s => s.subrequest_id) := by
  intro sucs
  induction sucs with
  | nil => intro m _; rfl
  | cons suc rest ih =>
      intro m hsrc
      have hsuc := hsrc suc (by simp)
      have hsources : (m.insert_shards [suc.shard]).sources = m.sources :=
        insert_shards_sources [suc.shard] m
      cases hfind : (m.insert_shards [suc.shard]).find_open_shards suc.shard.index_uid
        suc.shard.source_id U with
      | none =>
          have := find_open_shards_none _ _ _ _ hfind
          rw [hsources] at this
          exact absurd hsuc this
      | some es =>
          simp only [process_init_successes, hfind, List.map_cons]
          rw [ih _ (fun s hs => by rw [hsources]; exact hsrc s (by simp [hs]))]

lemma stamp_leaders_ids : ∀ (subs : List OpenShardSubrequest) (ps : List (Nat × Option Nat)),
    (stamp_leaders subs ps).map (fun s => s.subrequest_id) =
      subs.map (fun s => s.subrequest_id) := by
  intro subs
  induction subs with
  | nil => intro ps; cases ps <;> rfl
  | cons sub rest ih =>
      intro ps
      cases ps with
      | nil => rfl
      | cons p pt => simp [stamp_leaders, ih pt]

lemma stamp_leaders_mem : ∀ (subs : List OpenShardSubrequest) (ps : List (Nat × Option Nat)),
    ps.length = subs.length →
    ∀ s' ∈ stamp_leaders subs ps, ∃ sub ∈ subs, ∃ p ∈ ps,
      s' = { sub with leader_id := p.1, follower_id := p.2 } := by
  intro subs
  induction subs with
  | nil => intro ps _ s' hs'; simp [stamp_leaders] at hs'
  | cons sub rest ih =>
      intro ps hlen s' hs'
      cases ps with
      | nil => simp at hlen
      | cons p pt =>
          simp only [stamp_leaders, List.mem_cons] at hs'
          rcases hs' with hs' | hs'
          · exact ⟨sub, by simp, p, by simp, hs'⟩
          · obtain ⟨sub', hsub', p', hp', hEq⟩ := ih pt (by simpa using hlen) s' hs'
            exact ⟨sub', by simp [hsub'], p', by simp [hp'], hEq⟩

lemma available_subset_pool (pool U : List Nat) :
    ∀ x ∈ available_ingesters pool U, x ∈ pool := by
  intro x hx
  unfold available_ingesters at hx
  have := (List.perm_insertionSort (fun a b => a ≤ b) _).mem_iff.mp hx
  exact (List.mem_filter.mp this).1

lemma allocate_pair_leader_in_pool (R : Nat) (pool U : List Nat) (N : Nat)
    (m : ControlPlaneModel) (ps : List (Nat × Option Nat))
    (hps : allocate_shards R pool N U m = some ps) :
    ∀ p ∈ ps, p.1 ∈ pool := by
  intro p hp
  obtain ⟨q, hq, hpq⟩ := allocate_shards_mem R pool U N m ps hps p hp
  obtain ⟨i, hq1, -⟩ := cyclic_pairs_get _ q hq
  have : q.1 ∈ available_ingesters pool U := by
    rw [hq1]
    exact List.get_mem _ _ i.isLt
  rw [hpq]
  exact available_subset_pool pool U q.1 this

lemma stamp_leaders_length (subs : List OpenShardSubrequest)
    (ps : List (Nat × Option Nat)) : (stamp_leaders subs ps).length = subs.length := by
  have h := congrArg List.length (stamp_leaders_ids subs ps)
  simpa using h

/-- Claim C1 (amended): for every request for which `get_or_create_open_shards`
returns `Ok` and whose metastore and leaders behave ideally (the metastore
echoes every subrequest and every `init_shards` RPC succeeds for its whole
batch), the response lists every subrequest exactly once:
|successes| + |failures| = |subrequests| and the subrequest ids across
successes and failures are exactly the request's subrequest ids. (Without
the ideal-init hypothesis the property fails: an init failure's subrequest is
silently dropped from the response — see the counterexample.) -/
theorem claim_c1_amended_response_partition (R : Nat) (pool : List Nat)
    (mo : MetastoreRpc) (ir : InitRpc) (nid : Nat) (req : GetOrCreateOpenShardsRequest)
    (m : ControlPlaneModel) (hpool : pool.Nodup)
    (hmo : ∀ subs, mo subs = Except.ok (subs.map (fun sub =>
      OpenShardSubresponse.mk sub.subrequest_id (open_shard_of sub))))
    (hir : ∀ leader subs, ir leader subs = Except.ok (InitShardsResponse.mk
      (subs.map (fun sub => InitShardSuccess.mk sub.subrequest_id sub.shard)) []))
    (resp : GetOrCreateOpenShardsResponse)
    (hresp : (get_or_create_open_shards R pool mo ir nid req m).2 = Except.ok resp) :
    resp.successes.length + resp.failures.length = req.subrequests.length ∧
    ∀ i, (i ∈ resp.successes.map (fun s => s.subrequest_id) ∨
          i ∈ resp.failures.map (fun f => f.subrequest_id)) ↔
        i ∈ req.subrequests.map (fun s => s.subrequest_id) := by
  unfold get_or_create_open_shards at hresp
  dsimp only at hresp
  set m1 := handle_unavailable_leaders pool req.unavailable_leaders
    (handle_closed_shards req.closed_shards m) with hm1
  set r := resolve_subrequests m1 req.unavailable_leaders req.subrequests nid with hrdef
  obtain ⟨h1, h2, h3, h4⟩ := resolve_subrequests_spec m1 req.unavailable_leaders
    req.subrequests nid
  rw [← hrdef] at h1 h2 h3
  by_cases hq : r.2.2.1.isEmpty = true
  · rw [if_pos hq] at hresp
    dsimp only at hresp
    obtain rfl := Except.ok.inj hresp
    have hqnil : r.2.2.1 = [] := by
      cases hcase : r.2.2.1 with
      | nil => rfl
      | cons a t => rw [hcase] at hq; simp [List.isEmpty] at hq
    constructor
    · rw [hqnil] at h1
      simpa using h1
    · intro i
      have h2i := h2 i
      rw [hqnil] at h2i
      simp only [List.map_nil, List.not_mem_nil, or_false] at h2i
      exact h2i
  · have hq' : r.2.2.1.isEmpty = false := by
      cases hcase : r.2.2.1.isEmpty
      · rfl
      · exact absurd hcase hq
    rw [hq'] at hresp
    simp only [Bool.false_eq_true, if_false] at hresp
    cases halloc : allocate_shards R pool r.2.2.1.length req.unavailable_leaders m1 with
    | none =>
        rw [halloc] at hresp
        dsimp only at hresp
        obtain rfl := Except.ok.inj hresp
        constructor
        · dsimp only
          simp only [List.length_append, List.length_map]
          omega
        · intro i
          have h2i := h2 i
          dsimp only
          simp only [List.map_append, List.mem_append, List.map_map, Function.comp]
          tauto
    | some pairs =>
        rw [halloc] at hresp
        dsimp only at hresp
        rw [hmo (stamp_leaders r.2.2.1 pairs)] at hresp
        dsimp only at hresp
        set stamped := stamp_leaders r.2.2.1 pairs with hstamped
        set resps := stamped.map (fun sub =>
          OpenShardSubresponse.mk sub.subrequest_id (open_shard_of sub)) with hresps
        have hplen : pairs.length = r.2.2.1.length :=
          allocate_shards_length R pool req.unavailable_leaders r.2.2.1.length m1 hpool
            pairs halloc
        have hslen : stamped.length = r.2.2.1.length := by
          rw [hstamped]
          exact stamp_leaders_length _ _
        have hleaders : ∀ rr ∈ resps, rr.open_shard.leader_id ∈ pool := by
          intro rr hrr
          rw [hresps] at hrr
          obtain ⟨sub', hsub', rfl⟩ := List.mem_map.mp hrr
          rw [hstamped] at hsub'
          obtain ⟨sub0, hsub0, p, hp, rfl⟩ := stamp_leaders_mem r.2.2.1 pairs hplen
            sub' hsub'
          exact allocate_pair_leader_in_pool R pool req.unavailable_leaders r.2.2.1.length
            m1 pairs halloc p hp
        obtain ⟨hif, hilen, hiids, hisucc⟩ := init_shards_ideal pool ir hir resps hleaders
        have hsrc : ∀ suc ∈ (init_shards pool ir resps).successes,
            SourceUid.mk suc.shard.index_uid suc.shard.source_id ∈ m1.sources := by
          intro suc hsuc
          obtain ⟨rr, hrr, hid, hsh⟩ := hisucc suc hsuc
          rw [hsh]
          rw [hresps] at hrr
          obtain ⟨sub', hsub', rfl⟩ := List.mem_map.mp hrr
          rw [hstamped] at hsub'
          obtain ⟨sub0, hsub0, p, hp, rfl⟩ := stamp_leaders_mem r.2.2.1 pairs hplen
            sub' hsub'
          have := (h3 sub0 hsub0).1
          simpa [open_shard_of] using this
        have hpr := process_init_ids req.unavailable_leaders
          (init_shards pool ir resps).successes m1 hsrc
        obtain rfl := Except.ok.inj hresp
        have hprlen : (process_init_successes req.unavailable_leaders
            (init_shards pool ir resps).successes m1).2.length =
            (init_shards pool ir resps).successes.length := by
          have := congrArg List.length hpr
          simpa using this
        have hrlen : resps.length = r.2.2.1.length := by
          rw [hresps, List.length_map, hslen]
        have hrid : resps.map (fun rr => rr.subrequest_id) =
            stamped.map (fun s => s.subrequest_id) := by
          rw [hresps, List.map_map]
          rfl
        have hsid : stamped.map (fun s => s.subrequest_id) =
            r.2.2.1.map (fun q => q.subrequest_id) := by
          rw [hstamped]
          exact stamp_leaders_ids _ _
        constructor
        · dsimp only
          simp only [List.length_append]
          omega
        · intro i
          have h2i := h2 i
          dsimp only
          simp only [List.map_append, List.mem_append]
          have hpr_mem : (i ∈ (process_init_successes req.unavailable_leaders
              (init_shards pool ir resps).successes m1).2.map (fun s => s.subrequest_id)) ↔
              i ∈ r.2.2.1.map (fun q => q.subrequest_id) := by
            rw [hpr]
            rw [← hsid, ← hrid]
            exact hiids i
          tauto

/-- Witness for the amended C1 at a concrete input: one subrequest for a
known empty source, ideal metastore and leader; the response holds exactly
one success and no failure — every subrequest listed exactly once. -/
theorem claim_c1_witness :
    (get_or_create_open_shards 1 [5]
      (fun subs => Except.ok (subs.map (fun sub =>
        OpenShardSubresponse.mk sub.subrequest_id (open_shard_of sub))))
      (fun _ subs => Except.ok (InitShardsResponse.mk
        (subs.map (fun sub => InitShardSuccess.mk sub.subrequest_id sub.shard)) [])) 100
      (GetOrCreateOpenShardsRequest.mk [GetOrCreateOpenShardsSubrequest.mk 0 1 3] [] [])
      (ControlPlaneModel.mk [(1, 10)] [SourceUid.mk 10 3] [] [] [])).2 =
      Except.ok (GetOrCreateOpenShardsResponse.mk
        [GetOrCreateOpenShardsSuccess.mk 0 10 3
          [Shard.mk 100 10 3 5 none ShardState.Open 0 0]] []) ∧
    (GetOrCreateOpenShardsResponse.mk
      [GetOrCreateOpenShardsSuccess.mk 0 10 3
        [Shard.mk 100 10 3 5 none ShardState.Open 0 0]] []).successes.length +
    (GetOrCreateOpenShardsResponse.mk
      [GetOrCreateOpenShardsSuccess.mk 0 10 3
        [Shard.mk 100 10 3 5 none ShardState.Open 0 0]] []).failures.length = 1 := by
  refine ⟨rfl, ?_⟩
  have h := claim_c1_amended_response_partition 1 [5]
    (fun subs => Except.ok (subs.map (fun sub =>
      OpenShardSubresponse.mk sub.subrequest_id (open_shard_of sub))))
    (fun _ subs => Except.ok (InitShardsResponse.mk
      (subs.map (fun sub => InitShardSuccess.mk sub.subrequest_id sub.shard)) [])) 100
    (GetOrCreateOpenShardsRequest.mk [GetOrCreateOpenShardsSubrequest.mk 0 1 3] [] [])
    (ControlPlaneModel.mk [(1, 10)] [SourceUid.mk 10 3] [] [] []) (by decide)
    (fun _ => rfl) (fun _ _ => rfl)
    (GetOrCreateOpenShardsResponse.mk
      [GetOrCreateOpenShardsSuccess.mk 0 10 3
        [Shard.mk 100 10 3 5 none ShardState.Open 0 0]] []) (by rfl)
  exact h.1

/-! ### Closed-shard observation invariants (for C5) -/

/-- After the observations, no shard matching a reported (source, shard id)
pair is open. -/
def cs_unopen (cs : ShardIds) (m : ControlPlaneModel) : Prop :=
  ∀ s ∈ m.shards, s.index_uid = cs.index_uid → s.source_id = cs.source_id →
    s.shard_id ∈ cs.shard_ids → s.is_open = false

lemma close_shards_establishes (cs : ShardIds) (m : ControlPlaneModel) :
    cs_unopen cs (m.close_shards (SourceUid.mk cs.index_uid cs.source_id) cs.shard_ids) := by
  intro s' hs' hidx hsrcid hid
  unfold ControlPlaneModel.close_shards at hs'
  simp only [List.mem_map] at hs'
  obtain ⟨s, hs, hss⟩ := hs'
  by_cases hcond : (s.index_uid == cs.index_uid && s.source_id == cs.source_id &&
      cs.shard_ids.contains s.shard_id) = true
  · rw [if_pos hcond] at hss
    rw [← hss]
    rfl
  · rw [if_neg hcond] at hss
    subst hss
    exfalso
    apply hcond
    simp only [Bool.and_eq_true, beq_iff_eq]
    exact ⟨⟨hidx, hsrcid⟩, List.elem_eq_true_of_mem hid⟩

lemma close_shards_preserves (cs : ShardIds) (su : SourceUid) (ids : List Nat)
    (m : ControlPlaneModel) (h : cs_unopen cs m) :
    cs_unopen cs (m.close_shards su ids) := by
  intro s' hs' hidx hsrcid hid
  unfold ControlPlaneModel.close_shards at hs'
  simp only [List.mem_map] at hs'
  obtain ⟨s, hs, hss⟩ := hs'
  by_cases hcond : (s.index_uid == su.index_uid && s.source_id == su.source_id &&
      ids.contains s.shard_id) = true
  · rw [if_pos hcond] at hss
    rw [← hss]
    rfl
  · rw [if_neg hcond] at hss
    subst hss
    exact h s hs hidx hsrcid hid

lemma set_unavailable_preserves (cs : ShardIds) (leaders : List Nat)
    (m : ControlPlaneModel) (h : cs_unopen cs m) :
    cs_unopen cs (m.set_shards_as_unavailable leaders) := by
  intro s' hs' hidx hsrcid hid
  unfold ControlPlaneModel.set_shards_as_unavailable at hs'
  simp only [List.mem_map] at hs'
  obtain ⟨s, hs, hss⟩ := hs'
  by_cases hcond : (s.is_open && leaders.contains s.leader_id) = true
  · rw [if_pos hcond] at hss
    rw [← hss]
    rfl
  · rw [if_neg hcond] at hss
    subst hss
    exact h s hs hidx hsrcid hid

lemma handle_closed_preserves (cs : ShardIds) :
    ∀ (cls : List ShardIds) (m : ControlPlaneModel), cs_unopen cs m →
      cs_unopen cs (handle_closed_shards cls m) := by
  intro cls
  induction cls with
  | nil => intro m h; exact h
  | cons c rest ih =>
      intro m h
      unfold handle_closed_shards at ih ⊢
      simp only [List.foldl_cons]
      exact ih _ (close_shards_preserves cs _ _ m h)

lemma observations_unopen (pool unavailable_leaders : List Nat) (cls : List ShardIds)
    (m : ControlPlaneModel) (cs : ShardIds) (hcs : cs ∈ cls) :
    cs_unopen cs (handle_unavailable_leaders pool unavailable_leaders
      (handle_closed_shards cls m)) := by
  have hclosed : cs_unopen cs (handle_closed_shards cls m) := by
    obtain ⟨l1, l2, rfl⟩ := List.append_of_mem hcs
    unfold handle_closed_shards
    rw [List.foldl_append, List.foldl_cons]
    have := close_shards_establishes cs (List.foldl (fun mm cs =>
      mm.close_shards (SourceUid.mk cs.index_uid cs.source_id) cs.shard_ids) m l1)
    exact handle_closed_preserves cs l2 _ this
  unfold handle_unavailable_leaders
  dsimp only
  split_ifs with hconf
  · exact hclosed
  · exact set_unavailable_preserves cs _ _ hclosed

lemma insert_shard_preserves_unopen (cs : ShardIds) (x : Shard)
    (hx : x.shard_id ∉ cs.shard_ids) (m : ControlPlaneModel) (h : cs_unopen cs m) :
    cs_unopen cs (m.insert_shard x) := by
  intro s' hs' hidx hsrcid hid
  unfold ControlPlaneModel.insert_shard at hs'
  split_ifs at hs' with hany
  · simp only [List.mem_map] at hs'
    obtain ⟨s, hs, hss⟩ := hs'
    by_cases hcond : shard_key_matches s x = true
    · rw [if_pos hcond] at hss
      subst hss
      exact absurd hid hx
    · rw [if_neg hcond] at hss
      subst hss
      exact h s hs hidx hsrcid hid
  · simp only [List.mem_append, List.mem_singleton] at hs'
    rcases hs' with hs' | hs'
    · exact h s' hs' hidx hsrcid hid
    · subst hs'
      exact absurd hid hx

lemma insert_shards_preserves_unopen (cs : ShardIds) :
    ∀ (xs : List Shard), (∀ x ∈ xs, x.shard_id ∉ cs.shard_ids) →
      ∀ (m : ControlPlaneModel), cs_unopen cs m → cs_unopen cs (m.insert_shards xs) := by
  intro xs
  induction xs with
  | nil => intro _ m h; exact h
  | cons x rest ih =>
      intro hxs m h
      unfold ControlPlaneModel.insert_shards at ih ⊢
      simp only [List.foldl_cons]
      exact ih (fun y hy => hxs y (by simp [hy])) _
        (insert_shard_preserves_unopen cs x (hxs x (by simp)) m h)

lemma process_outputs_unopen (U : List Nat) (cs : ShardIds) :
    ∀ (sucs : List InitShardSuccess) (m : ControlPlaneModel),
      cs_unopen cs m → (∀ suc ∈ sucs, suc.shard.shard_id ∉ cs.shard_ids) →
      cs_unopen cs (process_init_successes U sucs m).1 ∧
      ∀ out ∈ (process_init_successes U sucs m).2, ∀ s ∈ out.open_shards,
        ¬(s.index_uid = cs.index_uid ∧ s.source_id = cs.source_id ∧
          s.shard_id ∈ cs.shard_ids) := by
  intro sucs
  induction sucs with
  | nil =>
      intro m h _
      exact ⟨h, by intro out hout; simp [process_init_successes] at hout⟩
  | cons suc rest ih =>
      intro m h hfresh
      have hm1 : cs_unopen cs (m.insert_shards [suc.shard]) :=
        insert_shards_preserves_unopen cs [suc.shard]
          (by intro x hx; rw [List.mem_singleton] at hx; subst hx
              exact hfresh suc (by simp)) m h
      cases hfind : (m.insert_shards [suc.shard]).find_open_shards suc.shard.index_uid
        suc.shard.source_id U with
      | none =>
          simp only [process_init_successes, hfind]
          exact ih _ hm1 (fun s hs => hfresh s (by simp [hs]))
      | some es =>
          obtain ⟨ihin, ihout⟩ := ih (m.insert_shards [suc.shard]) hm1
            (fun s hs => hfresh s (by simp [hs]))
          simp only [process_init_successes, hfind]
          refine ⟨ihin, ?_⟩
          intro out hout s hs
          simp only [List.mem_cons] at hout
          rcases hout with hout | hout
          · subst hout
            dsimp only at hs
            obtain ⟨-, hes⟩ := find_open_shards_some _ _ _ _ _ hfind
            obtain ⟨hmem, hopen⟩ := hes s hs
            rintro ⟨hidx, hsrcid, hid⟩
            have := hm1 s hmem hidx hsrcid hid
            rw [this] at hopen
            exact Bool.noConfusion hopen
          · exact ihout out hout s hs

lemma stamp_leaders_fields : ∀ (subs : List OpenShardSubrequest)
    (ps : List (Nat × Option Nat)) (s' : OpenShardSubrequest),
    s' ∈ stamp_leaders subs ps → ∃ sub ∈ subs, s'.shard_id = sub.shard_id ∧
      s'.index_uid = sub.index_uid ∧ s'.source_id = sub.source_id := by
  intro subs
  induction subs with
  | nil => intro ps s' hs'; simp [stamp_leaders] at hs'
  | cons sub rest ih =>
      intro ps s' hs'
      cases ps with
      | nil =>
          simp only [stamp_leaders, List.mem_cons] at hs'
          rcases hs' with hs' | hs'
          · subst hs'
            exact ⟨s', by simp, rfl, rfl, rfl⟩
          · exact ⟨s', by simp [hs'], rfl, rfl, rfl⟩
      | cons p pt =>
          simp only [stamp_leaders, List.mem_cons] at hs'
          rcases hs' with hs' | hs'
          · subst hs'
            exact ⟨sub, by simp, rfl, rfl, rfl⟩
          · obtain ⟨sub', hsub', hfields⟩ := ih pt s' hs'
            exact ⟨sub', by simp [hsub'], hfields⟩

/-- Claim C5: the closed-shards and unavailable-leaders observations are
applied to the model before any subrequest is resolved; consequently a shard
listed in the request's `closed_shards` never appears among the `open_shards`
of any success of the same call's response (assuming the metastore and the
leaders echo back only shards that were actually requested, and that the
minted shard ids are fresh, i.e. all reported closed ids are below the mint
counter). -/
theorem claim_c5_closed_observation_before_resolution (R : Nat) (pool : List Nat)
    (mo : MetastoreRpc) (ir : InitRpc) (nid : Nat) (req : GetOrCreateOpenShardsRequest)
    (m : ControlPlaneModel)
    (hmo_sub : ∀ subs resps, mo subs = Except.ok resps →
      ∀ rr ∈ resps, rr.open_shard ∈ subs.map open_shard_of)
    (hir_sub : ∀ leader subs r, ir leader subs = Except.ok r →
      ∀ suc ∈ r.successes, suc.shard ∈ subs.map (fun sub => sub.shard))
    (hfresh : ∀ cs ∈ req.closed_shards, ∀ i ∈ cs.shard_ids, i < nid)
    (resp : GetOrCreateOpenShardsResponse)
    (hresp : (get_or_create_open_shards R pool mo ir nid req m).2 = Except.ok resp) :
    ∀ succ ∈ resp.successes, ∀ s ∈ succ.open_shards, ∀ cs ∈ req.closed_shards,
      ¬(s.index_uid = cs.index_uid ∧ s.source_id = cs.source_id ∧
        s.shard_id ∈ cs.shard_ids) := by
  unfold get_or_create_open_shards at hresp
  dsimp only at hresp
  set m1 := handle_unavailable_leaders pool req.unavailable_leaders
    (handle_closed_shards req.closed_shards m) with hm1
  set r := resolve_subrequests m1 req.unavailable_leaders req.subrequests nid with hrdef
  obtain ⟨h1, h2, h3, h4⟩ := resolve_subrequests_spec m1 req.unavailable_leaders
    req.subrequests nid
  rw [← hrdef] at h3 h4
  intro succ hsucc s hs cs hcs
  have hunopen : cs_unopen cs m1 := by
    rw [hm1]
    exact observations_unopen pool req.unavailable_leaders req.closed_shards m cs hcs
  have hphase2 : ∀ succ' ∈ r.1, ∀ s' ∈ succ'.open_shards,
      ¬(s'.index_uid = cs.index_uid ∧ s'.source_id = cs.source_id ∧
        s'.shard_id ∈ cs.shard_ids) := by
    intro succ' hsucc' s' hs'
    obtain ⟨hmem, hopen⟩ := h4 succ' hsucc' s' hs'
    rintro ⟨hidx, hsrcid, hid⟩
    have hfalse := hunopen s' hmem hidx hsrcid hid
    rw [hopen] at hfalse
    exact Bool.noConfusion hfalse
  by_cases hqe : r.2.2.1.isEmpty = true
  · rw [if_pos hqe] at hresp
    dsimp only at hresp
    obtain rfl := Except.ok.inj hresp
    exact hphase2 succ hsucc s hs
  · have hq' : r.2.2.1.isEmpty = false := by
      cases hcase : r.2.2.1.isEmpty
      · rfl
      · exact absurd hcase hqe
    rw [hq'] at hresp
    simp only [Bool.false_eq_true, if_false] at hresp
    cases halloc : allocate_shards R pool r.2.2.1.length req.unavailable_leaders m1 with
    | none =>
        rw [halloc] at hresp
        dsimp only at hresp
        obtain rfl := Except.ok.inj hresp
        exact hphase2 succ hsucc s hs
    | some pairs =>
        rw [halloc] at hresp
        dsimp only at hresp
        cases hmores : mo (stamp_leaders r.2.2.1 pairs) with
        | error e =>
            rw [hmores] at hresp
            dsimp only at hresp
            exact Except.noConfusion hresp
        | ok resps =>
            rw [hmores] at hresp
            dsimp only at hresp
            obtain rfl := Except.ok.inj hresp
            dsimp only at hsucc
            rcases List.mem_append.mp hsucc with hin | hin
            · exact hphase2 succ hin s hs
            · have hfreshsucs : ∀ suc ∈ (init_shards pool ir resps).successes,
                  suc.shard.shard_id ∉ cs.shard_ids := by
                intro suc hsuc
                have hshard := init_shards_successes_shards pool ir hir_sub resps suc hsuc
                obtain ⟨rr, hrr, hsh⟩ := List.mem_map.mp hshard
                have hor := hmo_sub _ resps hmores rr hrr
                obtain ⟨sub', hsub', heq⟩ := List.mem_map.mp hor
                obtain ⟨q0, hq0, hid_eq, -, -⟩ := stamp_leaders_fields r.2.2.1 pairs
                  sub' hsub'
                have hge : nid ≤ suc.shard.shard_id := by
                  rw [← hsh, ← heq]
                  show nid ≤ sub'.shard_id
                  rw [hid_eq]
                  exact (h3 q0 hq0).2
                intro hin'
                have := hfresh cs hcs _ hin'
                omega
              exact (process_outputs_unopen req.unavailable_leaders cs _ m1 hunopen
                hfreshsucs).2 succ hin s hs

/-- Witness for C5 at a concrete input (the spec's scenario 2): the router
reports shard 1 closed in the same call that asks for shards; the response's
only success carries the freshly minted shard 100, and that shard is not the
closed (10, 3, 1). -/
theorem claim_c5_witness :
    ¬((Shard.mk 100 10 3 5 none ShardState.Open 0 0).index_uid =
        (ShardIds.mk 10 3 [1]).index_uid ∧
      (Shard.mk 100 10 3 5 none ShardState.Open 0 0).source_id =
        (ShardIds.mk 10 3 [1]).source_id ∧
      (Shard.mk 100 10 3 5 none ShardState.Open 0 0).shard_id ∈
        (ShardIds.mk 10 3 [1]).shard_ids) := by
  have h := claim_c5_closed_observation_before_resolution 1 [5]
    (fun subs => Except.ok (subs.map (fun sub =>
      OpenShardSubresponse.mk sub.subrequest_id (open_shard_of sub))))
    (fun _ subs => Except.ok (InitShardsResponse.mk
      (subs.map (fun sub => InitShardSuccess.mk sub.subrequest_id sub.shard)) [])) 100
    (GetOrCreateOpenShardsRequest.mk [GetOrCreateOpenShardsSubrequest.mk 0 1 3]
      [ShardIds.mk 10 3 [1]] [])
    (ControlPlaneModel.mk [(1, 10)] [SourceUid.mk 10 3]
      [Shard.mk 1 10 3 5 none ShardState.Open 0 0] [] [])
    (by
      intro subs resps hok rr hrr
      have hresps := Except.ok.inj hok
      rw [← hresps] at hrr
      obtain ⟨sub, hsub, rfl⟩ := List.mem_map.mp hrr
      exact List.mem_map_of_mem _ hsub)
    (by
      intro leader subs rr hok suc hsuc
      have hr := Except.ok.inj hok
      rw [← hr] at hsuc
      obtain ⟨sub, hsub, rfl⟩ := List.mem_map.mp hsuc
      exact List.mem_map_of_mem _ hsub)
    (by decide)
    (GetOrCreateOpenShardsResponse.mk
      [GetOrCreateOpenShardsSuccess.mk 0 10 3
        [Shard.mk 100 10 3 5 none ShardState.Open 0 0]] []) (by rfl)
  exact h (GetOrCreateOpenShardsSuccess.mk 0 10 3
      [Shard.mk 100 10 3 5 none ShardState.Open 0 0]) (by decide)
    (Shard.mk 100 10 3 5 none ShardState.Open 0 0) (by decide)
    (ShardIds.mk 10 3 [1]) (by decide)

/-! ### Rebalancer (`rebalance_shards`) and deferred close (`close_shards`) -/

/-- Generic update-first grouping step (HashMap entry semantics). -/
def add_to_group {α : Type} : List (Nat × List α) → Nat → α → List (Nat × List α)
  | [], key, x => [(key, [x])]
  | g :: rest, key, x =>
      if g.1 == key then (g.1, g.2 ++ [x]) :: rest
      else g :: add_to_group rest key x

/-- Per-leader grouping of the open shards, in shard-table order. -/
def per_leader_open_shards (shards : List Shard) : List (Nat × List Shard) :=
  (shards.filter (fun s => s.is_open)).foldl (fun g s => add_to_group g s.leader_id s) []

/-- The shards each overloaded leader contributes: the tail of its open-shard
list beyond the threshold. -/
def shards_to_move_of (groups : List (Nat × List Shard)) (threshold : Nat) : List Shard :=
  (groups.map (fun g => g.2.drop threshold)).flatten

/-- The rebalance threshold: `max(target * 12 / 10, target + 1)` where
`target = num_open_shards / num_ingesters`. -/
def rebalance_threshold (pool : List Nat) (m : ControlPlaneModel) : Nat :=
  let num_open_shards := (m.shards.filter (fun s => s.is_open)).length
  let num_open_shards_per_leader_target := num_open_shards / pool.length
  max (num_open_shards_per_leader_target * 12 / 10)
    (num_open_shards_per_leader_target + 1)

/-- The move set of one rebalance operation. -/
def rebalance_shards_to_move (pool : List Nat) (m : ControlPlaneModel) : List Shard :=
  shards_to_move_of (per_leader_open_shards m.shards) (rebalance_threshold pool m)

/-- Build the metastore subrequests (fresh shard ids minted in sequence) and
the pending-close map keyed by the new shard id, valued with the old shard's
leader and primary key (zip semantics: truncates at the shorter list). -/
def rebalance_build : List Shard → List (Nat × Option Nat) → Nat → Nat →
    List OpenShardSubrequest × List (Nat × (Nat × ShardPKey))
  | [], _, _, _ => ([], [])
  | _, [], _, _ => ([], [])
  | s :: ss, p :: ps, k, nid =>
      let rest := rebalance_build ss ps (k + 1) (nid + 1)
      (OpenShardSubrequest.mk k s.index_uid s.source_id nid p.1 p.2 :: rest.1,
        (nid, (s.leader_id, ShardPKey.mk s.index_uid s.source_id s.shard_id)) :: rest.2)

/-- Erase the pending closes keyed by the failed replacements' new shard ids. -/
def remove_failed_closes (fails : List InitShardFailure)
    (closes : List (Nat × (Nat × ShardPKey))) : List (Nat × (Nat × ShardPKey)) :=
  fails.foldl (fun acc f => acc.filter (fun e => !(e.1 == f.shard_id))) closes

/-- Apply the init successes to the model: insert each initialized shard and
drain the source's scale-down permits (so the autoscaler does not immediately
close the just-opened replacement). -/
def rebalance_apply (sucs : List InitShardSuccess) (m : ControlPlaneModel) :
    ControlPlaneModel :=
  sucs.foldl (fun mm suc =>
    (mm.insert_shards [suc.shard]).drain_scaling_permits
      (SourceUid.mk suc.shard.index_uid suc.shard.source_id) ScalingMode.Down) m

/-- `IngestController::rebalance_shards` (modulo the rebalance lock, which is
a runtime mutex): compute the move set from the per-leader threshold, allocate
replacements, commit them to the metastore, initialize them on their leaders,
insert successes into the model (draining down-permits) and erase the pending
close of each failed replacement. Returns the new model and, when the
operation reaches the deferred-close step, the (old leader, old pkey) list to
close after the propagation delay. -/
def rebalance_shards (replication_factor : Nat) (pool : List Nat) (mo : MetastoreRpc)
    (ir : InitRpc) (next_shard_id : Nat) (m : ControlPlaneModel) :
    ControlPlaneModel × Option (List (Nat × ShardPKey)) :=
  if pool.length == 0 then (m, none)
  else
    let stm := rebalance_shards_to_move pool m
    if stm.isEmpty then (m, none)
    else
      match allocate_shards replication_factor pool stm.length [] m with
      | none => (m, none)
      | some leader_follower_pairs =>
          let built := rebalance_build stm leader_follower_pairs 0 next_shard_id
          match mo built.1 with
          | Except.error _ => (m, none)
          | Except.ok subresponses =>
              let init_shards_response := init_shards pool ir subresponses
              (rebalance_apply init_shards_response.successes m,
                some ((remove_failed_closes init_shards_response.failures
                  built.2).map (fun e => e.2)))

/-- Group the pending closes by old leader (one `close_shards` RPC each) and
keep only the leaders present in the pool: an absent leader is skipped with a
warning and no RPC. -/
def close_shards_plan (pool : List Nat) (shards_to_close : List (Nat × ShardPKey)) :
    List (Nat × List ShardPKey) :=
  (shards_to_close.foldl (fun g e => add_to_group g e.1 e.2) []).filter
    (fun g => pool.contains g.1)

/-- Collect the successfully closed shard pkeys across the per-leader RPCs;
an erroring or timed-out RPC contributes nothing. -/
def collect_closed_shards (close_rpc : CloseRpc)
    (plan : List (Nat × List ShardPKey)) : List ShardPKey :=
  plan.foldl (fun acc g =>
    match close_rpc g.1 g.2 with
    | Except.ok successes => acc ++ successes
    | Except.error _ => acc) []

/-- The deferred step's callback: delivered only when at least one shard was
actually closed. -/
def rebalance_callback (closed_shards : List ShardPKey) : Option (List ShardPKey) :=
  if closed_shards.isEmpty then none else some closed_shards

lemma add_to_group_prop {α : Type} (P : Nat → α → Prop) :
    ∀ (gs : List (Nat × List α)) (key : Nat) (x : α),
      (∀ g ∈ gs, ∀ y ∈ g.2, P g.1 y) → P key x →
      ∀ g ∈ add_to_group gs key x, ∀ y ∈ g.2, P g.1 y := by
  intro gs
  induction gs with
  | nil =>
      intro key x _ hx g hg y hy
      simp only [add_to_group, List.mem_singleton] at hg
      subst hg
      simp only [List.mem_singleton] at hy
      subst hy
      exact hx
  | cons g0 rest ih =>
      intro key x hgs hx g hg y hy
      by_cases hkey : (g0.1 == key) = true
      · simp only [add_to_group, hkey, if_true, List.mem_cons] at hg
        rcases hg with hg | hg
        · subst hg
          simp only [List.mem_append, List.mem_singleton] at hy
          rcases hy with hy | hy
          · exact hgs g0 (by simp) y hy
          · subst hy
            rw [beq_iff_eq.mp hkey]
            exact hx
        · exact hgs g (by simp [hg]) y hy
      · simp only [add_to_group, hkey, Bool.false_eq_true, if_false, List.mem_cons] at hg
        rcases hg with hg | hg
        · subst hg
          exact hgs g (by simp) y hy
        · exact ih key x (fun g' hg' => hgs g' (by simp [hg'])) hx g hg y hy

lemma fold_add_group_prop {α : Type} (P : Nat → α → Prop) :
    ∀ (entries : List (Nat × α)) (init : List (Nat × List α)),
      (∀ g ∈ init, ∀ y ∈ g.2, P g.1 y) → (∀ e ∈ entries, P e.1 e.2) →
      ∀ g ∈ entries.foldl (fun g e => add_to_group g e.1 e.2) init, ∀ y ∈ g.2,
        P g.1 y := by
  intro entries
  induction entries with
  | nil => intro init hinit _ g hg; exact hinit g hg
  | cons e rest ih =>
      intro init hinit hP g hg y hy
      simp only [List.foldl_cons] at hg
      exact ih (add_to_group init e.1 e.2)
        (add_to_group_prop P init e.1 e.2 hinit (hP e (by simp)))
        (fun e' he' => hP e' (by simp [he'])) g hg y hy

lemma collect_fold_sub (close_rpc : CloseRpc) :
    ∀ (plan : List (Nat × List ShardPKey)) (acc : List ShardPKey) (pk : ShardPKey),
      pk ∈ plan.foldl (fun acc g =>
        match close_rpc g.1 g.2 with
        | Except.ok successes => acc ++ successes
        | Except.error _ => acc) acc →
      pk ∈ acc ∨ ∃ g ∈ plan, ∃ r, close_rpc g.1 g.2 = Except.ok r ∧ pk ∈ r := by
  intro plan
  induction plan with
  | nil => intro acc pk hpk; exact Or.inl hpk
  | cons g rest ih =>
      intro acc pk hpk
      simp only [List.foldl_cons] at hpk
      cases hrpc : close_rpc g.1 g.2 with
      | ok successes =>
          rw [hrpc] at hpk
          rcases ih _ pk hpk with hin | ⟨g', hg', r, hr, hpkr⟩
          · rcases List.mem_append.mp hin with hin | hin
            · exact Or.inl hin
            · exact Or.inr ⟨g, by simp, successes, hrpc, hin⟩
          · exact Or.inr ⟨g', by simp [hg'], r, hr, hpkr⟩
      | error e =>
          rw [hrpc] at hpk
          rcases ih _ pk hpk with hin | ⟨g', hg', r, hr, hpkr⟩
          · exact Or.inl hin
          · exact Or.inr ⟨g', by simp [hg'], r, hr, hpkr⟩

/-- Claim C10: in the rebalancer's deferred close step, an old shard whose
leader is absent from the pool at close time is skipped without any RPC
(no plan entry addresses that leader, and the shard's pkey appears in no
issued request) and never appears in the collected closed-shards result; and
when the collected list is empty, no `RebalanceShardsCallback` is delivered
at all. -/
theorem claim_c10_deferred_close_absent_leader (pool : List Nat) (close_rpc : CloseRpc)
    (to_close : List (Nat × ShardPKey))
    (hsub : ∀ leader pks r, close_rpc leader pks = Except.ok r → ∀ pk ∈ r, pk ∈ pks) :
    (∀ l pk, (l, pk) ∈ to_close → l ∉ pool →
      (∀ g ∈ close_shards_plan pool to_close, g.1 ≠ l) ∧
      ((∀ l', (l', pk) ∈ to_close → l' = l) →
        (∀ g ∈ close_shards_plan pool to_close, pk ∉ g.2) ∧
        pk ∉ collect_closed_shards close_rpc (close_shards_plan pool to_close))) ∧
    (collect_closed_shards close_rpc (close_shards_plan pool to_close) = [] →
      rebalance_callback (collect_closed_shards close_rpc
        (close_shards_plan pool to_close)) = none) := by
  have hplan_mem : ∀ g ∈ close_shards_plan pool to_close, g.1 ∈ pool ∧
      ∀ pk ∈ g.2, (g.1, pk) ∈ to_close := by
    intro g hg
    unfold close_shards_plan at hg
    have hf := List.mem_filter.mp hg
    refine ⟨List.mem_of_elem_eq_true hf.2, ?_⟩
    intro pk hpk
    exact fold_add_group_prop (fun k y => (k, y) ∈ to_close) to_close []
      (by intro g' hg'; simp at hg') (fun e he => he) g hf.1 pk hpk
  constructor
  · intro l pk hmem hlpool
    have hkey : ∀ g ∈ close_shards_plan pool to_close, g.1 ≠ l := by
      intro g hg hEq
      have := (hplan_mem g hg).1
      rw [hEq] at this
      exact hlpool this
    refine ⟨hkey, ?_⟩
    intro huniq
    have hnot : ∀ g ∈ close_shards_plan pool to_close, pk ∉ g.2 := by
      intro g hg hpk
      exact hkey g hg (huniq g.1 ((hplan_mem g hg).2 pk hpk))
    refine ⟨hnot, ?_⟩
    intro hcollect
    unfold collect_closed_shards at hcollect
    rcases collect_fold_sub close_rpc _ [] pk hcollect with hin | ⟨g, hg, r, hr, hpkr⟩
    · simp at hin
    · exact hnot g hg (hsub g.1 g.2 r hr pk hpkr)
  · intro hempty
    rw [hempty]
    rfl

/-- Witness for C10 at a concrete input: pending closes for leaders 7 (absent
from the pool) and 5 (present); the shard under the absent leader 7 is absent
from the collected closed-shards result even with an ingester that closes
everything it is asked to. -/
theorem claim_c10_witness :
    ShardPKey.mk 1 1 1 ∉ collect_closed_shards (fun _ pks => Except.ok pks)
      (close_shards_plan [5] [(7, ShardPKey.mk 1 1 1), (5, ShardPKey.mk 1 1 2)]) :=
  (((claim_c10_deferred_close_absent_leader [5] (fun _ pks => Except.ok pks)
      [(7, ShardPKey.mk 1 1 1), (5, ShardPKey.mk 1 1 2)]
      (by intro leader pks r h pk hpk; cases Except.ok.inj h; exact hpk)).1 7
      (ShardPKey.mk 1 1 1) (by decide) (by decide)).2 (by
        intro l' h
        simp only [List.mem_cons, List.not_mem_nil, or_false, Prod.mk.injEq] at h
        rcases h with ⟨h1, -⟩ | ⟨h1, h2⟩
        · exact h1
        · exact absurd h2 (by decide))).2

/-! ### Rebalancer lemmas (for C8) -/

lemma rebalance_build_spec : ∀ (stm : List Shard) (pairs : List (Nat × Option Nat))
    (k nid : Nat),
    (∀ sub ∈ (rebalance_build stm pairs k nid).1, nid ≤ sub.shard_id) ∧
    (∀ e ∈ (rebalance_build stm pairs k nid).2,
      nid ≤ e.1 ∧ ∃ sub ∈ (rebalance_build stm pairs k nid).1, sub.shard_id = e.1) := by
  intro stm
  induction stm with
  | nil => intro pairs k nid; simp [rebalance_build]
  | cons s ss ih =>
      intro pairs k nid
      cases pairs with
      | nil => simp [rebalance_build]
      | cons p ps =>
          obtain ⟨ih1, ih2⟩ := ih ps (k + 1) (nid + 1)
          constructor
          · intro sub hsub
            simp only [rebalance_build, List.mem_cons] at hsub
            rcases hsub with hsub | hsub
            · subst hsub
              simp
            · have := ih1 sub hsub
              omega
          · intro e he
            simp only [rebalance_build, List.mem_cons] at he
            rcases he with he | he
            · subst he
              refine ⟨by simp, ?_⟩
              refine ⟨OpenShardSubrequest.mk k s.index_uid s.source_id nid p.1 p.2, ?_, rfl⟩
              simp [rebalance_build]
            · obtain ⟨hge, sub, hsub, hid⟩ := ih2 e he
              refine ⟨by omega, sub, ?_, hid⟩
              simp [rebalance_build, hsub]

lemma remove_failed_closes_spec :
    ∀ (fails : List InitShardFailure) (closes : List (Nat × (Nat × ShardPKey)))
      (e : Nat × (Nat × ShardPKey)), e ∈ remove_failed_closes fails closes →
      e ∈ closes ∧ ∀ f ∈ fails, e.1 ≠ f.shard_id := by
  intro fails
  induction fails with
  | nil => intro closes e he; exact ⟨he, by simp⟩
  | cons f rest ih =>
      intro closes e he
      unfold remove_failed_closes at he ih
      simp only [List.foldl_cons] at he
      obtain ⟨hfilter, hrest⟩ := ih _ e he
      have hmem := List.mem_filter.mp hfilter
      refine ⟨hmem.1, ?_⟩
      intro f' hf'
      simp only [List.mem_cons] at hf'
      rcases hf' with hf' | hf'
      · subst hf'
        have := hmem.2
        simp only [Bool.not_eq_eq_eq_not, Bool.not_true, beq_eq_false_iff_ne, ne_eq] at this
        exact this
      · exact hrest f' hf'

lemma init_fold_mono (pool : List Nat) (ir : InitRpc) :
    ∀ (gs : List (Nat × List InitShardSubrequest)) (acc : InitShardsResponse),
      (∀ x ∈ acc.successes, x ∈ (gs.foldl (init_step pool ir) acc).successes) ∧
      (∀ x ∈ acc.failures, x ∈ (gs.foldl (init_step pool ir) acc).failures) := by
  intro gs
  induction gs with
  | nil => intro acc; exact ⟨fun x hx => hx, fun x hx => hx⟩
  | cons g rest ih =>
      intro acc
      simp only [List.foldl_cons]
      have hstep : (∀ x ∈ acc.successes, x ∈ (init_step pool ir acc g).successes) ∧
          (∀ x ∈ acc.failures, x ∈ (init_step pool ir acc g).failures) := by
        unfold init_step
        split_ifs with hcont
        · cases hrpc : ir g.1 g.2 with
          | ok resp =>
              exact ⟨fun x hx => List.mem_append_left _ hx,
                fun x hx => List.mem_append_left _ hx⟩
          | error e =>
              exact ⟨fun x hx => hx, fun x hx => List.mem_append_left _ hx⟩
        · exact ⟨fun x hx => hx, fun x hx => List.mem_append_left _ hx⟩
      obtain ⟨ihs, ihf⟩ := ih (init_step pool ir acc g)
      exact ⟨fun x hx => ihs x (hstep.1 x hx), fun x hx => ihf x (hstep.2 x hx)⟩

lemma init_fold_cover (pool : List Nat) (ir : InitRpc)
    (hir_cover : ∀ leader subs r, ir leader subs = Except.ok r → ∀ sub ∈ subs,
      sub.shard.shard_id ∈ r.successes.map (fun s => s.shard.shard_id) ∨
      sub.shard.shard_id ∈ r.failures.map (fun f => f.shard_id)) :
    ∀ (gs : List (Nat × List InitShardSubrequest)) (acc : InitShardsResponse),
      ∀ g ∈ gs, ∀ sub ∈ g.2,
        sub.shard.shard_id ∈
          (gs.foldl (init_step pool ir) acc).successes.map (fun s => s.shard.shard_id) ∨
        sub.shard.shard_id ∈
          (gs.foldl (init_step pool ir) acc).failures.map (fun f => f.shard_id) := by
  intro gs
  induction gs with
  | nil => intro acc g hg; simp at hg
  | cons g0 rest ih =>
      intro acc g hg sub hsub
      simp only [List.mem_cons] at hg
      simp only [List.foldl_cons]
      rcases hg with hg | hg
      · subst hg
        obtain ⟨hmonos, hmonof⟩ := init_fold_mono pool ir rest (init_step pool ir acc g)
        by_cases hcont : pool.contains g.1 = true
        · cases hrpc : ir g.1 g.2 with
          | ok resp =>
              rcases hir_cover g.1 g.2 resp hrpc sub hsub with hin | hin
              · left
                obtain ⟨x, hx, hxid⟩ := List.mem_map.mp hin
                rw [← hxid]
                apply List.mem_map_of_mem
                apply hmonos
                unfold init_step
                rw [if_pos hcont, hrpc]
                exact List.mem_append_right _ hx
              · right
                obtain ⟨x, hx, hxid⟩ := List.mem_map.mp hin
                rw [← hxid]
                apply List.mem_map_of_mem
                apply hmonof
                unfold init_step
                rw [if_pos hcont, hrpc]
                exact List.mem_append_right _ hx
          | error e =>
              right
              apply List.mem_map.mpr
              refine ⟨InitShardFailure.mk sub.subrequest_id sub.shard.index_uid
                sub.shard.source_id sub.shard.shard_id, ?_, rfl⟩
              apply hmonof
              unfold init_step
              rw [if_pos hcont, hrpc]
              apply List.mem_append_right
              unfold init_shard_failures_of
              exact List.mem_map_of_mem _ hsub
        · have hcont' : pool.contains g.1 = false := by
            cases h : pool.contains g.1
            · rfl
            · exact absurd h hcont
          right
          apply List.mem_map.mpr
          refine ⟨InitShardFailure.mk sub.subrequest_id sub.shard.index_uid
            sub.shard.source_id sub.shard.shard_id, ?_, rfl⟩
          apply hmonof
          unfold init_step
          rw [hcont']
          simp only [Bool.false_eq_true, if_false]
          apply List.mem_append_right
          unfold init_shard_failures_of
          exact List.mem_map_of_mem _ hsub
      · exact ih (init_step pool ir acc g0) g hg sub hsub

lemma init_shards_cover (pool : List Nat) (ir : InitRpc)
    (resps : List OpenShardSubresponse)
    (hir_cover : ∀ leader subs r, ir leader subs = Except.ok r → ∀ sub ∈ subs,
      sub.shard.shard_id ∈ r.successes.map (fun s => s.shard.shard_id) ∨
      sub.shard.shard_id ∈ r.failures.map (fun f => f.shard_id)) :
    ∀ rr ∈ resps, rr.open_shard.shard_id ∈
        (init_shards pool ir resps).successes.map (fun s => s.shard.shard_id) ∨
      rr.open_shard.shard_id ∈
        (init_shards pool ir resps).failures.map (fun f => f.shard_id) := by
  intro rr hrr
  obtain ⟨-, hmem, -⟩ := group_by_leader_spec (resps.map (fun r =>
    InitShardSubrequest.mk r.subrequest_id r.open_shard))
  have hsub : InitShardSubrequest.mk rr.subrequest_id rr.open_shard ∈
      flat_groups (group_by_leader (resps.map (fun r =>
        InitShardSubrequest.mk r.subrequest_id r.open_shard))) := by
    rw [hmem]
    exact List.mem_map_of_mem _ hrr
  unfold flat_groups at hsub
  rw [List.mem_flatten] at hsub
  obtain ⟨l, hl, hsubl⟩ := hsub
  obtain ⟨g, hg, rfl⟩ := List.mem_map.mp hl
  unfold init_shards
  dsimp only
  exact init_fold_cover pool ir hir_cover _ (InitShardsResponse.mk [] []) g hg _ hsubl

lemma drain_scaling_permits_shards (m : ControlPlaneModel) (su : SourceUid)
    (mode : ScalingMode) : (m.drain_scaling_permits su mode).shards = m.shards := by
  cases mode <;> rfl

lemma insert_shard_preserve_mem (m : ControlPlaneModel) (x s : Shard) (hs : s ∈ m.shards)
    (hne : shard_key_matches s x = false) : s ∈ (m.insert_shard x).shards := by
  unfold ControlPlaneModel.insert_shard
  split_ifs with hany
  · apply List.mem_map.mpr
    refine ⟨s, hs, ?_⟩
    rw [if_neg (by simp [hne])]
  · exact List.mem_append_left _ hs

lemma rebalance_apply_preserves (nid : Nat) :
    ∀ (sucs : List InitShardSuccess) (m : ControlPlaneModel),
      (∀ suc ∈ sucs, nid ≤ suc.shard.shard_id) →
      ∀ s ∈ m.shards, s.shard_id < nid → s ∈ (rebalance_apply sucs m).shards := by
  intro sucs
  induction sucs with
  | nil => intro m _ s hs _; exact hs
  | cons suc rest ih =>
      intro m hsucs s hs hlt
      unfold rebalance_apply at ih ⊢
      simp only [List.foldl_cons]
      refine ih _ (fun x hx => hsucs x (by simp [hx])) s ?_ hlt
      rw [drain_scaling_permits_shards]
      have hne : shard_key_matches s suc.shard = false := by
        cases hmatch : shard_key_matches s suc.shard
        · rfl
        · exfalso
          unfold shard_key_matches at hmatch
          simp only [Bool.and_eq_true, beq_iff_eq] at hmatch
          have := hsucs suc (by simp)
          omega
      exact insert_shard_preserve_mem m suc.shard s hs hne

/-- Claim C8: in every rebalance operation that reaches the init step, the
pending close keyed by each failed replacement's new shard id is erased, so a
deferred close is issued only for old shards whose replacement's init
succeeded; the old shard paired with a failed init is never in the close
list, and every old shard record — in particular every moved one — survives
unchanged (hence open) in the model, which rebalance never closes.
Hypotheses: the metastore echoes the committed batch, the leaders' init
responses only mention requested shards and cover their whole batch, and the
minted ids are fresh (all model shard ids are below the mint counter). -/
theorem claim_c8_rebalance_erases_failed_init_closes (R : Nat) (pool : List Nat)
    (mo : MetastoreRpc) (ir : InitRpc) (nid : Nat) (m : ControlPlaneModel)
    (stm : List Shard) (pairs : List (Nat × Option Nat))
    (resps : List OpenShardSubresponse) (iresp : InitShardsResponse)
    (hpool0 : ¬ pool.length = 0)
    (hstm : stm = rebalance_shards_to_move pool m)
    (hsne : stm.isEmpty = false)
    (halloc : allocate_shards R pool stm.length [] m = some pairs)
    (hresps : resps = (rebalance_build stm pairs 0 nid).1.map (fun sub =>
      OpenShardSubresponse.mk sub.subrequest_id (open_shard_of sub)))
    (hmores : mo (rebalance_build stm pairs 0 nid).1 = Except.ok resps)
    (hiresp : iresp = init_shards pool ir resps)
    (hir_sub : ∀ leader subs r, ir leader subs = Except.ok r →
      ∀ suc ∈ r.successes, suc.shard ∈ subs.map (fun sub => sub.shard))
    (hir_cover : ∀ leader subs r, ir leader subs = Except.ok r → ∀ sub ∈ subs,
      sub.shard.shard_id ∈ r.successes.map (fun s => s.shard.shard_id) ∨
      sub.shard.shard_id ∈ r.failures.map (fun f => f.shard_id))
    (hfresh : ∀ s ∈ m.shards, s.shard_id < nid) :
    rebalance_shards R pool mo ir nid m =
      (rebalance_apply iresp.successes m,
        some ((remove_failed_closes iresp.failures
          (rebalance_build stm pairs 0 nid).2).map (fun e => e.2))) ∧
    (∀ e ∈ remove_failed_closes iresp.failures (rebalance_build stm pairs 0 nid).2,
      (∀ f ∈ iresp.failures, e.1 ≠ f.shard_id) ∧
      e.1 ∈ iresp.successes.map (fun s => s.shard.shard_id)) ∧
    (∀ d lo, (d, lo) ∈ (rebalance_build stm pairs 0 nid).2 →
      d ∈ iresp.failures.map (fun f => f.shard_id) →
      (d, lo) ∉ remove_failed_closes iresp.failures (rebalance_build stm pairs 0 nid).2) ∧
    (∀ s ∈ m.shards, s ∈ (rebalance_apply iresp.successes m).shards) := by
  obtain ⟨hbuild1, hbuild2⟩ := rebalance_build_spec stm pairs 0 nid
  have hsucids : ∀ suc ∈ iresp.successes, nid ≤ suc.shard.shard_id := by
    intro suc hsuc
    rw [hiresp] at hsuc
    have hshard := init_shards_successes_shards pool ir hir_sub resps suc hsuc
    rw [hresps] at hshard
    obtain ⟨rr, hrr, hsh⟩ := List.mem_map.mp hshard
    obtain ⟨sub, hsub, rfl⟩ := List.mem_map.mp hrr
    have : suc.shard.shard_id = sub.shard_id := by
      rw [← hsh]
      rfl
    rw [this]
    exact hbuild1 sub hsub
  refine ⟨?_, ?_, ?_, ?_⟩
  · unfold rebalance_shards
    have hbeq : (pool.length == 0) = false := by simp [hpool0]
    rw [hbeq]
    simp only [Bool.false_eq_true, if_false]
    rw [← hstm, hsne]
    simp only [Bool.false_eq_true, if_false]
    rw [halloc]
    dsimp only
    rw [hmores]
    dsimp only
    rw [← hiresp]
  · intro e he
    obtain ⟨hin, hne⟩ := remove_failed_closes_spec iresp.failures _ e he
    refine ⟨hne, ?_⟩
    obtain ⟨-, sub, hsub, hid⟩ := hbuild2 e hin
    have hrr : OpenShardSubresponse.mk sub.subrequest_id (open_shard_of sub) ∈ resps := by
      rw [hresps]
      exact List.mem_map_of_mem _ hsub
    have hcov := init_shards_cover pool ir resps hir_cover _ hrr
    rw [← hiresp] at hcov
    have hidq : (OpenShardSubresponse.mk sub.subrequest_id
        (open_shard_of sub)).open_shard.shard_id = e.1 := hid
    rw [hidq] at hcov
    rcases hcov with hcov | hcov
    · exact hcov
    · exfalso
      obtain ⟨f, hf, hfid⟩ := List.mem_map.mp hcov
      exact hne f hf hfid.symm
  · intro d lo hmem hfail hinrem
    obtain ⟨-, hne⟩ := remove_failed_closes_spec iresp.failures _ _ hinrem
    obtain ⟨f, hf, hfid⟩ := List.mem_map.mp hfail
    exact hne f hf hfid.symm
  · intro s hs
    exact rebalance_apply_preserves nid iresp.successes m hsucids s hs (hfresh s hs)

/-- Witness for C8 at a concrete input (the spec's scenario 5): five open
shards on leader 1, two moved to leader 2; the replacement with new id 101
fails init, so the pending close of its old shard (pkey 5) is erased. -/
theorem claim_c8_witness :
    ((101 : Nat), ((1 : Nat), ShardPKey.mk 10 3 5)) ∉
      remove_failed_closes
        (init_shards [1, 2]
          (fun _ subs => Except.ok (InitShardsResponse.mk
            ((subs.filter (fun sub => !(sub.shard.shard_id == 101))).map (fun sub =>
              InitShardSuccess.mk sub.subrequest_id sub.shard))
            ((subs.filter (fun sub => sub.shard.shard_id == 101)).map (fun sub =>
              InitShardFailure.mk sub.subrequest_id sub.shard.index_uid
                sub.shard.source_id sub.shard.shard_id))))
          ((rebalance_build [Shard.mk 4 10 3 1 none ShardState.Open 0 0,
              Shard.mk 5 10 3 1 none ShardState.Open 0 0] [(2, none), (2, none)]
              0 100).1.map (fun sub =>
            OpenShardSubresponse.mk sub.subrequest_id (open_shard_of sub)))).failures
        (rebalance_build [Shard.mk 4 10 3 1 none ShardState.Open 0 0,
          Shard.mk 5 10 3 1 none ShardState.Open 0 0] [(2, none), (2, none)] 0 100).2 := by
  have h := claim_c8_rebalance_erases_failed_init_closes 1 [1, 2]
    (fun subs => Except.ok (subs.map (fun sub =>
      OpenShardSubresponse.mk sub.subrequest_id (open_shard_of sub))))
    (fun _ subs => Except.ok (InitShardsResponse.mk
      ((subs.filter (fun sub => !(sub.shard.shard_id == 101))).map (fun sub =>
        InitShardSuccess.mk sub.subrequest_id sub.shard))
      ((subs.filter (fun sub => sub.shard.shard_id == 101)).map (fun sub =>
        InitShardFailure.mk sub.subrequest_id sub.shard.index_uid sub.shard.source_id
          sub.shard.shard_id)))) 100
    (ControlPlaneModel.mk [(1, 10)] [SourceUid.mk 10 3]
      [Shard.mk 1 10 3 1 none ShardState.Open 0 0, Shard.mk 2 10 3 1 none ShardState.Open 0 0,
       Shard.mk 3 10 3 1 none ShardState.Open 0 0, Shard.mk 4 10 3 1 none ShardState.Open 0 0,
       Shard.mk 5 10 3 1 none ShardState.Open 0 0] [] [])
    [Shard.mk 4 10 3 1 none ShardState.Open 0 0, Shard.mk 5 10 3 1 none ShardState.Open 0 0]
    [(2, none), (2, none)]
    ((rebalance_build [Shard.mk 4 10 3 1 none ShardState.Open 0 0,
        Shard.mk 5 10 3 1 none ShardState.Open 0 0] [(2, none), (2, none)]
        0 100).1.map (fun sub =>
      OpenShardSubresponse.mk sub.subrequest_id (open_shard_of sub)))
    (init_shards [1, 2]
      (fun _ subs => Except.ok (InitShardsResponse.mk
        ((subs.filter (fun sub => !(sub.shard.shard_id == 101))).map (fun sub =>
          InitShardSuccess.mk sub.subrequest_id sub.shard))
        ((subs.filter (fun sub => sub.shard.shard_id == 101)).map (fun sub =>
          InitShardFailure.mk sub.subrequest_id sub.shard.index_uid
            sub.shard.source_id sub.shard.shard_id))))
      ((rebalance_build [Shard.mk 4 10 3 1 none ShardState.Open 0 0,
          Shard.mk 5 10 3 1 none ShardState.Open 0 0] [(2, none), (2, none)]
          0 100).1.map (fun sub =>
        OpenShardSubresponse.mk sub.subrequest_id (open_shard_of sub))))
    (by decide) (by decide) (by decide) (by decide) rfl rfl rfl
    (by
      intro leader subs r hok suc hsuc
      cases Except.ok.inj hok
      obtain ⟨sub, hsub, rfl⟩ := List.mem_map.mp hsuc
      exact List.mem_map_of_mem _ (List.mem_of_mem_filter hsub))
    (by
      intro leader subs r hok sub hsub
      cases Except.ok.inj hok
      by_cases hid : (sub.shard.shard_id == 101) = true
      · right
        apply List.mem_map.mpr
        exact ⟨InitShardFailure.mk sub.subrequest_id sub.shard.index_uid
          sub.shard.source_id sub.shard.shard_id,
          List.mem_map_of_mem _ (List.mem_filter.mpr ⟨hsub, hid⟩), rfl⟩
      · left
        apply List.mem_map.mpr
        refine ⟨InitShardSuccess.mk sub.subrequest_id sub.shard, ?_, rfl⟩
        apply List.mem_map_of_mem
        apply List.mem_filter.mpr
        exact ⟨hsub, by simp [hid]⟩)
    (by decide)
  exact h.2.2.1 101 (1, ShardPKey.mk 10 3 5) (by decide) (by decide)
